import Mathlib

/-! # Translation queue submission (scripts/actions)

A shallow embedding of `scripts/actions/send-and-update-translation-queue.js`
and `scripts/actions/utils/vendor-request.js`.

Conventions of the embedding.

* JavaScript values that the program only inspects one level deep (vendor
  `data`, database rows, upload outcomes) are `JVal`: a scalar or an object
  whose properties are scalars. Reading a missing property gives `undefined`;
  reading any property of `undefined` or `null` throws a `TypeError`.
* An `async` function is a state transformer `Eff`: it takes the state of the
  outside world (vendor and database, an arbitrary state machine `Env`) and
  the trace of calls issued so far, and returns the settled result
  (`Except JsError`) and the new state. Effects performed before a throw stay.
* `xs.map(f)` over an `async f` followed by `Promise.all` is `dispatchAll`
  followed by `awaitAll`: every call is started (run here to completion, in
  array order) whether or not an earlier one rejected, then the first
  rejection, if any, is thrown.
* Every HTTP answer carries a JSON envelope `{response: {code, data}}`;
  network failures and unparseable bodies are outside the model, as are
  `console` output and the delays between retries.
* The file system is part of `World`: a read throws where nothing exists and
  may throw where something does (a directory), and a write may throw.
-/

namespace TranslationQueue

/-! ## JavaScript values -/

/-- A JSON scalar as JavaScript sees it. -/
inductive Prim where
  | undefined
  | null
  | bool (b : Bool)
  | num (n : Int)
  | str (s : String)
  deriving DecidableEq, Repr

/-- A JavaScript value of depth one: a scalar, or an object with scalar properties. -/
inductive JVal where
  | prim (p : Prim)
  | obj (props : List (String × Prim))
  deriving DecidableEq, Repr

/-- Values a JavaScript `throw` (or a rejected promise) carries in this program. -/
inductive JsError where
  /-- `new Error(JSON.stringify(response, null, 2))`: the message is the
  serialization of the envelope's `response` object, kept symbolic. -/
  | vendorError (code : Prim) (data : JVal)
  /-- A `TypeError`, e.g. reading a property of `undefined`. -/
  | typeError (what : String)
  /-- A `ReferenceError`: an identifier that is not declared anywhere. -/
  | referenceError (name : String)
  /-- A rejection coming from the persistence layer or the file system. -/
  | rejected (why : String)
  deriving DecidableEq, Repr

/-- String conversion of a scalar inside a template literal or a concatenation. -/
def Prim.toStr : Prim → String
  | .undefined => "undefined"
  | .null => "null"
  | .bool true => "true"
  | .bool false => "false"
  | .num n => toString n
  | .str s => s

/-- Property read `v[key]` / destructuring `const {key} = v`. -/
def getProp (v : JVal) (key : String) : Except JsError Prim :=
  match v with
  | .prim .undefined => .error (.typeError ("Cannot read properties of undefined (reading " ++ key ++ ")"))
  | .prim .null => .error (.typeError ("Cannot read properties of null (reading " ++ key ++ ")"))
  | .prim _ => .ok .undefined
  | .obj props =>
    match props.find? (fun kv => kv.1 == key) with
    | some kv => .ok kv.2
    | none => .ok .undefined

/-! ## Plain objects used as ordered maps

A plain object whose keys are not canonical array indices keeps its keys in
insertion order; locale codes such as `jp` are such keys. -/

/-- A plain JavaScript object with string keys, in `Object.keys` order. -/
abbrev Obj (α : Type) := List (String × α)

/-- The keys, as `Object.keys(o)`. -/
def objKeys {α : Type} (o : Obj α) : List String := o.map Prod.fst

/-- The values, as `Object.values(o)`. -/
def objValues {α : Type} (o : Obj α) : List α := o.map Prod.snd

/-- The read `o[key]`, `none` standing for `undefined`. -/
def objGet {α : Type} (o : Obj α) (key : String) : Option α :=
  (o.find? (fun kv => kv.1 == key)).map Prod.snd

/-- The object literal `{...o, [key]: v}`: an existing key keeps its place and
takes the new value, a new key goes last. -/
def objSet {α : Type} : Obj α → String → α → Obj α
  | [], key, v => [(key, v)]
  | (k, x) :: rest, key, v =>
    if k = key then (k, v) :: rest else (k, x) :: objSet rest key v

/-! ## HTTP -/

/-- The body handed to `fetch`, kept structured (JSON bodies before
`JSON.stringify`, multipart forms field by field). -/
inductive Body where
  /-- No `body` property at all (a `GET`). -/
  | absent
  /-- The empty object, the default `body = {}` of `vendorRequest`. -/
  | empty
  /-- The body `{userIdentifier, userSecret}` of the authenticate call. -/
  | credentials (userIdentifier userSecret : Prim)
  /-- The body `{jobName, targetLocaleIds}` of the create-job call. -/
  | job (jobName : String) (targetLocaleIds : List Prim)
  /-- The body `{authorize, translationJobUid, fileUris}` of the create-batch call. -/
  | batch (authorize : Bool) (translationJobUid : Prim) (fileUris : List String)
  /-- The upload form: `fileType`, `localeIdsToAuthorize[]`, `fileUri`, `file`. -/
  | fileForm (fileType : String) (localeIdsToAuthorize : Prim) (fileUri : String) (file : String)
  /-- The context form: `content` (with its `filename`) and `name`. -/
  | contextForm (content : String) (filename : String) (name : String)
  deriving DecidableEq, Repr

/-- The arguments of one `fetch(url.href, options)` call. -/
structure Request where
  method : String
  url : String
  authorization : Option String
  contentType : Option String
  body : Body
  deriving DecidableEq, Repr

/-- The object `response` of the envelope `{response: {code, data}}`. -/
structure Envelope where
  code : Prim
  data : JVal
  deriving DecidableEq, Repr

/-- What `fetch` resolves to: the status, the body as text (`res.text()`) and
the body as a parsed envelope (`resp.json()`). -/
structure HttpResponse where
  status : Nat
  text : String
  response : Envelope
  deriving DecidableEq, Repr

/-- The getter `resp.ok`: a status in the range 200 to 299. -/
def HttpResponse.ok (r : HttpResponse) : Bool := decide (200 ≤ r.status) && decide (r.status ≤ 299)

/-! ## Persistence layer and outside world -/

/-- A row of the pending translation queue, as `main` reads it. -/
structure PendingJob where
  locale : String
  slug : String
  deriving DecidableEq, Repr

/-- The calls of `translation_workflow/database` that resolve to one value. -/
inductive DbCall where
  | addJob (jobUid batchUid : Prim) (status : String)
  | updateJob (id : Prim) (status : String)
  | getJobs (batch_uid : Prim)
  | updateTranslation (id : JVal) (status : String)
  | addTranslationsJobsRecord (jobUid : Prim)
  | getTranslationsJobsRecords (jobId : Prim)
  deriving DecidableEq, Repr

/-- Everything the program does to the outside world, in the order it does it. -/
inductive Event where
  | fetch (req : Request)
  | db (call : DbCall)
  | getTranslations (status : String)
  | writeFile (path : String) (content : String)
  deriving DecidableEq, Repr

/-- The vendor and the database as one state machine over states `σ`. -/
structure Env (σ : Type) where
  /-- The answer of the remote end to one `fetch`. -/
  fetch : σ → Request → HttpResponse × σ
  /-- The result of one database call. -/
  db : σ → DbCall → Except JsError JVal × σ
  /-- The result of `getTranslations({status})`. -/
  getTranslations : σ → String → Except JsError (List PendingJob) × σ

/-- The read-only surroundings of one run: environment variables, clock, file
system, and the library functions the program calls but does not define. -/
structure World where
  /-- The variable `process.env.TRANSLATION_VENDOR_API_URL`. -/
  apiUrl : String
  /-- The variable `process.env.TRANSLATION_VENDOR_PROJECT`, as a template prints it. -/
  projectId : String
  /-- The variable `process.env.TRANSLATION_VENDOR_USER`. -/
  user : Prim
  /-- The variable `process.env.TRANSLATION_VENDOR_SECRET`. -/
  secret : Prim
  /-- The string `new Date().toLocaleString()`. -/
  now : String
  /-- The string `process.cwd()`. -/
  cwd : String
  /-- The function `path.join`. -/
  pathJoin : String → String → String
  /-- The string `new URL(input, base).href`. -/
  href : String → String → String
  /-- The string `Buffer.from(s).toString('base64')`. -/
  base64 : String → String
  /-- The file system as the reads see it: `none` where nothing exists at a path,
  and otherwise what `fs.readFileSync` does there, the contents of a file or the
  error it throws (`EISDIR` for a directory, for instance). -/
  files : String → Option (Except JsError String)
  /-- What `fs.writeFileSync(path, content, 'utf8')` does: it succeeds or throws. -/
  writeFile : String → String → Except JsError Unit
  /-- The function `serializeMDX` of `./serialize-mdx`. -/
  serializeMDX : String → String

/-- The state threaded through a run. -/
structure St (σ : Type) where
  env : σ
  trace : List Event

/-- An `async` computation: settled result and final state. -/
def Eff (σ α : Type) : Type := St σ → Except JsError α × St σ

/-- The computation `return a`. -/
def Eff.pure {σ α : Type} (a : α) : Eff σ α := fun s => (.ok a, s)

/-- Sequencing with `await`: a rejection skips the rest and keeps the state. -/
def Eff.bind {σ α β : Type} (m : Eff σ α) (f : α → Eff σ β) : Eff σ β := fun s =>
  match m s with
  | (.ok a, s1) => f a s1
  | (.error e, s1) => (.error e, s1)

instance {σ : Type} : Monad (Eff σ) where
  pure := Eff.pure
  bind := Eff.bind

/-- The statement `throw e`. -/
def throwJs {σ α : Type} (e : JsError) : Eff σ α := fun s => (.error e, s)

/-- A synchronous computation that may throw, inside an `async` function. -/
def liftExcept {σ α : Type} (r : Except JsError α) : Eff σ α := fun s => (r, s)

/-- Starting an `async` call without awaiting it: the call runs, its outcome is
kept as a settled promise, and the caller goes on. -/
def attempt {σ α : Type} (m : Eff σ α) : Eff σ (Except JsError α) := fun s =>
  match m s with
  | (r, s1) => (.ok r, s1)

/-- The block `try { m } catch (error) { handler error }`. -/
def tryCatch {σ α : Type} (m : Eff σ α) (handler : JsError → Eff σ α) : Eff σ α := fun s =>
  match m s with
  | (.ok a, s1) => (.ok a, s1)
  | (.error e, s1) => handler e s1

/-- The array `xs.map((x, idx) => f idx x)`, built element by element from
index `idx` on; a callback that throws ends the loop. -/
def mapWithIndex {σ α β : Type} (f : Nat → α → Eff σ β) : Nat → List α → Eff σ (List β)
  | _, [] => pure []
  | idx, x :: xs => do
    let y ← f idx x
    let ys ← mapWithIndex f (idx + 1) xs
    pure (y :: ys)

/-- The array `xs.map(f)` for an `async f`: one settled promise per element. -/
def dispatchAll {σ α β : Type} (xs : List α) (f : α → Eff σ β) : Eff σ (List (Except JsError β)) :=
  mapWithIndex (fun _ x => attempt (f x)) 0 xs

/-- The promise `Promise.all(promises)` once everything has settled. -/
def awaitAll {α : Type} : List (Except JsError α) → Except JsError (List α)
  | [] => .ok []
  | .error e :: _ => .error e
  | .ok a :: rest =>
    match awaitAll rest with
    | .ok as => .ok (a :: as)
    | .error e => .error e

/-- One `fetch(url.href, options)`: the call is recorded and the remote end answers. -/
def doFetch {σ : Type} (env : Env σ) (req : Request) : Eff σ HttpResponse := fun s =>
  match env.fetch s.env req with
  | (resp, e1) => (.ok resp, ⟨e1, s.trace ++ [Event.fetch req]⟩)

/-- One awaited database call. -/
def doDb {σ : Type} (env : Env σ) (call : DbCall) : Eff σ JVal := fun s =>
  match env.db s.env call with
  | (r, e1) => (r, ⟨e1, s.trace ++ [Event.db call]⟩)

/-- The call `await getTranslations({status})`. -/
def doGetTranslations {σ : Type} (env : Env σ) (status : String) : Eff σ (List PendingJob) := fun s =>
  match env.getTranslations s.env status with
  | (r, e1) => (r, ⟨e1, s.trace ++ [Event.getTranslations status]⟩)

/-- The call `fs.writeFileSync(path, content, 'utf8')`: a write that succeeds
is recorded, one that throws leaves the state as it is. -/
def writeFileSync {σ : Type} (w : World) (path content : String) : Eff σ Unit := fun s =>
  match w.writeFile path content with
  | .ok _ => (.ok (), ⟨s.env, s.trace ++ [Event.writeFile path content]⟩)
  | .error e => (.error e, s)

/-! ## utils/vendor-request.js -/

/-- Modelled from the spec: the retry loop of the `cockatiel` policy
`Policy.handleWhenResult(handle).retry().attempts(n).exponential()`, a library
that is not part of the sources. Section 4.1: a result is retried only when
`handle` accepts it, `n` bounds the attempts in total, and once they are used up
the last result is returned. `retries` is the number of attempts still allowed
after the next one. -/
def retryLoop {σ : Type} (handle : HttpResponse → Bool) (fn : Eff σ HttpResponse) :
    Nat → Eff σ HttpResponse
  | 0 => fn
  | retries + 1 => do
    let result ← fn
    if handle result then retryLoop handle fn retries else pure result

/-- Modelled from the spec: the call `retry.execute(fn)` of a policy built
with `.attempts(attempts)`, the library `cockatiel` not being part of the
sources: `attempts` calls of `fn` in total at most. -/
def retryExecute {σ : Type} (attempts : Nat) (handle : HttpResponse → Bool) (fn : Eff σ HttpResponse) :
    Eff σ HttpResponse :=
  retryLoop handle fn (attempts - 1)

/-- The function `makeRequest(url, options)`. -/
def makeRequest {σ : Type} (env : Env σ) (req : Request) : Eff σ JVal := do
  let resp ← retryExecute 3 (fun response => response.status == 429) (doFetch env req)
  let response := resp.response
  let code := response.code
  let data := response.data
  if code ≠ Prim.str "SUCCESS" then
    throwJs (JsError.vendorError response.code response.data)
  else
    pure data

/-- The `url.href` and `options` that `getAccessToken` hands to `makeRequest`. -/
def authenticateArgs (w : World) : Request :=
  { method := "POST"
    url := w.href "/auth-api/v2/authenticate" w.apiUrl
    authorization := none
    contentType := some "application/json"
    body := Body.credentials w.user w.secret }

/-- The function `getAccessToken()`. -/
def getAccessToken {σ : Type} (w : World) (env : Env σ) : Eff σ Prim := do
  let data ← makeRequest env (authenticateArgs w)
  let accessToken ← liftExcept (getProp data "accessToken")
  pure accessToken

/-- The argument object of `vendorRequest`, `contentType` defaulting to JSON. -/
structure VendorOptions where
  method : String
  endpoint : String
  accessToken : Prim
  body : Body := Body.empty
  contentType : String := "application/json"

/-- The `url.href` and `options` that `vendorRequest` hands to `makeRequest`. -/
def vendorRequestArgs (w : World) (o : VendorOptions) : Request :=
  { method := o.method
    url := w.href o.endpoint w.apiUrl
    authorization := some ("Bearer " ++ o.accessToken.toStr)
    contentType := some o.contentType
    body := if o.method ≠ "GET" then o.body else Body.absent }

/-- The function `vendorRequest({method, endpoint, accessToken, body, contentType})`. -/
def vendorRequest {σ : Type} (w : World) (env : Env σ) (o : VendorOptions) : Eff σ JVal :=
  makeRequest env (vendorRequestArgs w o)

/-! ## send-and-update-translation-queue.js -/

/-- The type `Page`: the file path of a page and its serialized HTML. -/
structure Page where
  file : String
  html : String
  deriving DecidableEq, Repr

/-- The table `LOCALE_IDS`, read at a key; a key that is not listed reads as `undefined`. -/
def LOCALE_IDS (locale : Prim) : Prim :=
  if locale.toStr = "jp" then Prim.str "ja-JP" else Prim.undefined

/-- The constant `DOCS_SITE_URL`. -/
def DOCS_SITE_URL : String := "https://docs.newrelic.com"

/-- The call `fs.existsSync(path)`. -/
def existsSync (w : World) (path : String) : Bool := (w.files path).isSome

/-- The call `fs.readFileSync(path)`. -/
def readFileSync (w : World) (path : String) : Except JsError String :=
  match w.files path with
  | some outcome => outcome
  | none => .error (.rejected ("ENOENT: no such file or directory, open " ++ path))

/-- The function `getContent(listByLocale)`: per locale, the promise of the pages. -/
def getContent (w : World) (listByLocale : Obj (List String)) : Obj (Except JsError (List Page)) :=
  listByLocale.foldl
    (fun acc entry =>
      objSet acc entry.1
        (awaitAll
          ((entry.2.filter (fun slug => existsSync w (w.pathJoin w.cwd slug))).map
            (fun slug =>
              match readFileSync w (w.pathJoin w.cwd slug) with
              | .error e => .error e
              | .ok mdx => .ok { file := slug, html := w.serializeMDX mdx }))))
    []

/-- The method `str.replace(pattern, replacement)` for a string pattern, on
characters: the first occurrence only. -/
def replaceFirstChars (pattern replacement : List Char) : List Char → List Char
  | [] => if pattern = [] then replacement else []
  | c :: cs =>
    if pattern.isPrefixOf (c :: cs) then replacement ++ (c :: cs).drop pattern.length
    else c :: replaceFirstChars pattern replacement cs

/-- The method `str.replace(pattern, replacement)` for a string pattern. -/
def replaceFirst (str pattern replacement : String) : String :=
  String.mk (replaceFirstChars pattern.toList replacement.toList str.toList)

/-- The function `sendPageContext(fileUri, accessToken)`. -/
def sendPageContext {σ : Type} (w : World) (env : Env σ) (fileUri : String) (accessToken : Prim) :
    Eff σ Unit := do
  let filepath := replaceFirst fileUri "src/content/" ""
  let slug := replaceFirst filepath ".mdx" ""
  let contextUrl := w.href slug DOCS_SITE_URL
  let res ← doFetch env
    { method := "GET", url := contextUrl, authorization := none, contentType := none,
      body := Body.absent }
  let html := res.text
  let form := Body.contextForm html fileUri contextUrl
  let url := w.href
    ("/context-api/v2/projects/" ++ w.projectId ++ "/contexts/upload-and-match-async") w.apiUrl
  let options : Request :=
    { method := "POST", url := url, authorization := some ("Bearer " ++ accessToken.toStr),
      contentType := none, body := form }
  let _resp ← doFetch env options
  pure ()

/-- The `url.href` and `options` that `uploadFile` hands to `fetch`. The `file`
field of the form streams the temporary file just written, that is `page.html`. -/
def uploadFileArgs (w : World) (locale batchUid accessToken : Prim) (page : Page) : Request :=
  { method := "POST"
    url := w.href
      ("/job-batches-api/v2/projects/" ++ w.projectId ++ "/batches/" ++ batchUid.toStr ++ "/file")
      w.apiUrl
    authorization := some ("Bearer " ++ accessToken.toStr)
    contentType := none
    body := Body.fileForm "html" (LOCALE_IDS locale) page.file page.html }

/-- The `filepath` of `uploadFile`: the base64 of `locale + page.file` with the
extension `.html`, joined to the working directory. -/
def uploadFilePath (w : World) (locale : Prim) (page : Page) : String :=
  w.pathJoin w.cwd (w.base64 (locale.toStr ++ page.file) ++ ".html")

/-- The function `uploadFile(locale, batchUid, accessToken)(page)`. -/
def uploadFile {σ : Type} (w : World) (env : Env σ) (locale batchUid accessToken : Prim)
    (page : Page) : Eff σ JVal := do
  let filename := w.base64 (locale.toStr ++ page.file) ++ ".html"
  let filepath := w.pathJoin w.cwd filename
  writeFileSync w filepath page.html
  let resp ← doFetch env (uploadFileArgs w locale batchUid accessToken page)
  let code := resp.response.code
  if code = Prim.str "ACCEPTED" ∧ resp.ok = true then
    sendPageContext w env page.file accessToken
  else
    pure ()
  pure (JVal.obj [("code", code), ("locale", locale), ("slug", Prim.str page.file)])

/-- The function `updateStatus(successfulUploads, status)`. -/
def updateStatus {σ : Type} (env : Env σ) : List JVal → String → Eff σ Unit
  | [], _ => pure ()
  | upload :: rest, status => do
    let batch_uid ← liftExcept (getProp upload "batchUid")
    let job ← doDb env (DbCall.getJobs batch_uid)
    let jobId ← liftExcept (getProp job "id")
    let translationId ← doDb env (DbCall.getTranslationsJobsRecords jobId)
    let _ ← doDb env (DbCall.updateJob jobId status)
    let _ ← doDb env (DbCall.updateTranslation translationId status)
    updateStatus env rest status

/-- The array `uploads.filter(({ code }) => keep (code === 'ACCEPTED'))`. -/
def filterByCode (keep : Bool → Bool) : List JVal → Except JsError (List JVal)
  | [] => .ok []
  | upload :: rest =>
    match getProp upload "code" with
    | .error e => .error e
    | .ok code =>
      match filterByCode keep rest with
      | .error e => .error e
      | .ok kept => .ok (if keep (decide (code = Prim.str "ACCEPTED")) then upload :: kept else kept)

/-- The create-job options of `sendContentToVendor` for one locale. -/
def jobOptions (w : World) (accessToken : Prim) (locale : String) : VendorOptions :=
  { method := "POST"
    endpoint := "/jobs-api/v3/projects/" ++ w.projectId ++ "/jobs"
    body := Body.job ("Gatsby Translation Queue (" ++ locale ++ ") " ++ w.now)
      [LOCALE_IDS (Prim.str locale)]
    accessToken := accessToken }

/-- The create-batch options of `sendContentToVendor` for one job and its pages. -/
def batchOptions (w : World) (accessToken : Prim) (jobUid : Prim) (pages : List Page) :
    VendorOptions :=
  { method := "POST"
    endpoint := "/job-batches-api/v2/projects/" ++ w.projectId ++ "/batches"
    body := Body.batch false jobUid (pages.map Page.file)
    accessToken := accessToken }

/-- Step 1 of `sendContentToVendor` (lines 166 to 181): a job per locale. -/
def createJobs {σ : Type} (w : World) (env : Env σ) (content : Obj (Except JsError (List Page)))
    (accessToken : Prim) : Eff σ (List Prim) := do
  let jobRequests ← dispatchAll (objKeys content)
    (fun locale => vendorRequest w env (jobOptions w accessToken locale))
  let jobsResponses ← liftExcept (awaitAll jobRequests)
  let jobUids ← liftExcept (jobsResponses.mapM (fun resp => getProp resp "translationJobUid"))
  pure jobUids

/-- Lines 183 to 191 of `sendContentToVendor`: a queue record per job. -/
def recordJobs {σ : Type} (env : Env σ) (jobUids : List Prim) : Eff σ (List JVal) := do
  let queueTranslationsJobsRecord ← dispatchAll jobUids
    (fun jobUid => doDb env (DbCall.addTranslationsJobsRecord jobUid))
  liftExcept (awaitAll queueTranslationsJobsRecord)

/-- The callback of `jobUids.map` in step 2 of `sendContentToVendor`: the
create-batch call for the job at position `idx`. -/
def createBatch {σ : Type} (w : World) (env : Env σ) (pages : List (List Page))
    (accessToken : Prim) (idx : Nat) (jobUid : Prim) : Eff σ (Except JsError JVal) :=
  match pages[idx]? with
  | none => throwJs (JsError.typeError "Cannot read properties of undefined (reading map)")
  | some pagesAtIdx => attempt (vendorRequest w env (batchOptions w accessToken jobUid pagesAtIdx))

/-- Step 2 of `sendContentToVendor` (lines 193 to 209): a batch per job. -/
def createBatches {σ : Type} (w : World) (env : Env σ) (content : Obj (Except JsError (List Page)))
    (jobUids : List Prim) (accessToken : Prim) : Eff σ (List (List Page) × List JVal) := do
  let pages ← liftExcept (awaitAll (objValues content))
  let batchRequests ← mapWithIndex (createBatch w env pages accessToken) 0 jobUids
  let batchResponses ← liftExcept (awaitAll batchRequests)
  pure (pages, batchResponses)

/-- Lines 210 to 213 of `sendContentToVendor`: the loop over `addJob`. -/
def persistBatches {σ : Type} (env : Env σ) : List JVal → Eff σ Unit
  | [] => pure ()
  | response :: rest => do
    let job_uid ← liftExcept (getProp response "job_uid")
    let batch_uid ← liftExcept (getProp response "batch_uid")
    let _ ← doDb env (DbCall.addJob job_uid batch_uid "PENDING")
    persistBatches env rest

/-- Lines 214 to 216 of `sendContentToVendor`: the template reads `jobRecords`,
an identifier declared nowhere, so evaluating it throws. -/
def logJobRecords {σ : Type} : Eff σ Unit :=
  throwJs (JsError.referenceError "jobRecords")

/-- The callback of `batchUids.flatMap` in step 3 of `sendContentToVendor`: the
upload promises of the pages at position `idx`. -/
def uploadBatch {σ : Type} (w : World) (env : Env σ) (content : Obj (Except JsError (List Page)))
    (pages : List (List Page)) (accessToken : Prim) (idx : Nat) (batchUid : Prim) :
    Eff σ (List (Except JsError JVal)) :=
  let locale : Prim :=
    match (objKeys content)[idx]? with
    | some key => Prim.str key
    | none => Prim.undefined
  match pages[idx]? with
  | none => throwJs (JsError.typeError "Cannot read properties of undefined (reading map)")
  | some pagesAtIdx => dispatchAll pagesAtIdx (uploadFile w env locale batchUid accessToken)

/-- Lines 217 to 224 of `sendContentToVendor`: the upload promises, flattened. -/
def fileRequests {σ : Type} (w : World) (env : Env σ) (content : Obj (Except JsError (List Page)))
    (pages : List (List Page)) (batchResponses : List JVal) (accessToken : Prim) :
    Eff σ (List (Except JsError JVal)) := do
  let batchUids ← liftExcept (batchResponses.mapM (fun resp => getProp resp "batchUid"))
  let nested ← mapWithIndex (uploadBatch w env content pages accessToken) 0 batchUids
  pure nested.flatten

/-- Step 3 of `sendContentToVendor` (lines 217 to 235): upload and reconcile. -/
def uploadAndReconcile {σ : Type} (w : World) (env : Env σ)
    (content : Obj (Except JsError (List Page))) (pages : List (List Page))
    (batchResponses : List JVal) (accessToken : Prim) : Eff σ (List JVal) := do
  let requests ← fileRequests w env content pages batchResponses accessToken
  let fileResponses ← liftExcept (awaitAll requests)
  let successfulUploads ← liftExcept (filterByCode (fun accepted => accepted) fileResponses)
  updateStatus env successfulUploads "IN_PROGRESS"
  pure fileResponses

/-- The function `sendContentToVendor(content, accessToken)`; it resolves to
the `fileResponses` of its result object. -/
def sendContentToVendor {σ : Type} (w : World) (env : Env σ)
    (content : Obj (Except JsError (List Page))) (accessToken : Prim) : Eff σ (List JVal) := do
  let jobUids ← createJobs w env content accessToken
  let _ ← recordJobs env jobUids
  let (pages, batchResponses) ← createBatches w env content jobUids accessToken
  persistBatches env batchResponses
  logJobRecords
  uploadAndReconcile w env content pages batchResponses accessToken

/-- The reduction of `main` that groups the pending slugs by locale. -/
def listByLocale (pendingJobs : List PendingJob) : Obj (List String) :=
  pendingJobs.foldl
    (fun acc job => objSet acc job.locale ((objGet acc job.locale).getD [] ++ [job.slug]))
    []

/-- The function `main()`; the result is the argument of `process.exit`, and a
rejection is one that escapes `main` (thrown outside its `try`). -/
def main {σ : Type} (w : World) (env : Env σ) : Eff σ Nat := do
  let pendingJobs ← doGetTranslations env "PENDING"
  let content := getContent w (listByLocale pendingJobs)
  tryCatch
    (do
      let accessToken ← getAccessToken w env
      let fileResponses ← sendContentToVendor w env content accessToken
      let failedUploads ← liftExcept (filterByCode (fun accepted => !accepted) fileResponses)
      pure (if failedUploads.length ≠ 0 then 1 else 0))
    (fun _error => pure 1)

/-! ## Vocabulary of the statements -/

/-- The state after `n` successive `fetch` calls with the same arguments. -/
def afterFetches {σ : Type} (env : Env σ) (req : Request) : Nat → St σ → St σ
  | 0, s => s
  | n + 1, s => afterFetches env req n (doFetch env req s).2

/-- The answer the remote end gives to attempt `n`, counted from 0, of a request
repeated from state `s`. -/
def nthResponse {σ : Type} (env : Env σ) (req : Request) (s : St σ) (n : Nat) : HttpResponse :=
  (env.fetch (afterFetches env req n s).env req).1

/-- The position, counted from 1, of the first of three answers whose status is
not 429, and 3 when all three have status 429. -/
def attemptsUsed (answers : Nat → HttpResponse) : Nat :=
  if (answers 0).status ≠ 429 then 1
  else if (answers 1).status ≠ 429 then 2
  else 3

/-- What `makeRequest` makes of the envelope it parses: `data`, or a throw. -/
def unwrapEnvelope (response : Envelope) : Except JsError JVal :=
  if response.code = Prim.str "SUCCESS" then .ok response.data
  else .error (JsError.vendorError response.code response.data)

/-- The envelope that `makeRequest` parses: the one of the last answer its
retry loop received. -/
def parsedEnvelope {σ : Type} (env : Env σ) (req : Request) (s : St σ) : Envelope :=
  (nthResponse env req s (attemptsUsed (nthResponse env req s) - 1)).response

/-- The promises `getContent` hands to `Promise.all` for one locale: one per
slug that exists, in the order of the slugs, rejected where the read throws. -/
def pagePromises (w : World) (slugs : List String) : List (Except JsError Page) :=
  (slugs.filter (fun slug => existsSync w (w.pathJoin w.cwd slug))).map
    (fun slug =>
      match readFileSync w (w.pathJoin w.cwd slug) with
      | .error e => .error e
      | .ok mdx => .ok { file := slug, html := w.serializeMDX mdx })

/-- The pages of the slugs that exist, in the order of the slugs: what the
promise `getContent` builds for one locale resolves to when every read succeeds. -/
def loadPages (w : World) (slugs : List String) : List Page :=
  (slugs.filter (fun slug => existsSync w (w.pathJoin w.cwd slug))).map
    (fun slug =>
      { file := slug
        html := w.serializeMDX
          (match readFileSync w (w.pathJoin w.cwd slug) with
            | .ok mdx => mdx
            | .error _ => "") })

/-! ## The persistence layer

The module `translation_workflow/database` is not part of the sources; the
store below follows sections 1, 3, 4.5 and 6 of the specification: keyed rows,
with the verbs add, update and get-by-filter. -/

/-- Modelled from the spec: a TranslationRequest row of the missing database
module, `{locale, slug, status}` with a key. -/
structure TranslationRow where
  id : Prim
  locale : String
  slug : String
  status : String
  deriving DecidableEq, Repr

/-- Modelled from the spec: a Job/Batch row of the missing database module, the
vendor identifiers of a job and its batch with a status and a key. -/
structure JobRow where
  id : Prim
  job_uid : Prim
  batch_uid : Prim
  status : String
  deriving DecidableEq, Repr

/-- Modelled from the spec: a row of the missing database module that
associates a Job with a TranslationRequest. -/
structure TranslationsJobsRow where
  jobId : Prim
  translationId : Prim
  deriving DecidableEq, Repr

/-- Modelled from the spec: the store of the missing database module. -/
structure Store where
  translations : List TranslationRow
  jobs : List JobRow
  translationsJobs : List TranslationsJobsRow
  queuedJobUids : List Prim
  deriving DecidableEq, Repr

/-- Modelled from the spec: a Job row of the missing database module as the
object `getJobs` resolves to. -/
def JobRow.toJVal (job : JobRow) : JVal :=
  JVal.obj [("id", job.id), ("job_uid", job.job_uid), ("batch_uid", job.batch_uid),
    ("status", Prim.str job.status)]

/-- Modelled from the spec: the verbs of the missing database module (section
6): `addJob` adds a row under a fresh key, `updateJob` and `updateTranslation`
set the `status` of the row with the given key, `getJobs` gets a Job by its
`batch_uid` and `getTranslationsJobsRecords` the TranslationRequest key
associated with a Job key, both `undefined` when there is none,
`addTranslationsJobsRecord` records a job identifier. -/
def storeDb (store : Store) : DbCall → Except JsError JVal × Store
  | .addJob jobUid batchUid status =>
    (.ok (JVal.prim Prim.undefined),
      { store with
        jobs := store.jobs ++ [⟨Prim.num (store.jobs.length + 1), jobUid, batchUid, status⟩] })
  | .updateJob id status =>
    (.ok (JVal.prim Prim.undefined),
      { store with
        jobs := store.jobs.map (fun job => if job.id = id then { job with status := status } else job) })
  | .getJobs batch_uid =>
    (match store.jobs.find? (fun job => decide (job.batch_uid = batch_uid)) with
      | some job => .ok job.toJVal
      | none => .ok (JVal.prim Prim.undefined),
      store)
  | .updateTranslation id status =>
    (.ok (JVal.prim Prim.undefined),
      { store with
        translations := store.translations.map
          (fun row => if JVal.prim row.id = id then { row with status := status } else row) })
  | .addTranslationsJobsRecord jobUid =>
    (.ok (JVal.prim Prim.undefined), { store with queuedJobUids := store.queuedJobUids ++ [jobUid] })
  | .getTranslationsJobsRecords jobId =>
    (match store.translationsJobs.find? (fun row => decide (row.jobId = jobId)) with
      | some row => .ok (JVal.prim row.translationId)
      | none => .ok (JVal.prim Prim.undefined),
      store)

/-- Modelled from the spec: the verb `getTranslations({status})` of the missing
database module, the rows with that status. -/
def storeGetTranslations (store : Store) (status : String) :
    Except JsError (List PendingJob) × Store :=
  (.ok ((store.translations.filter (fun row => decide (row.status = status))).map
    (fun row => ⟨row.locale, row.slug⟩)), store)

/-- The store together with a remote end that answers each request by `answer`. -/
def storeEnv (answer : Request → HttpResponse) : Env Store :=
  { fetch := fun store req => (answer req, store)
    db := storeDb
    getTranslations := storeGetTranslations }

/-! ## Concrete surroundings used in the examples -/

/-- The UTF-8 bytes of a character. -/
def utf8Bytes (c : Char) : List Nat :=
  if c.toNat < 128 then [c.toNat]
  else if c.toNat < 2048 then [192 + c.toNat / 64, 128 + c.toNat % 64]
  else if c.toNat < 65536 then
    [224 + c.toNat / 4096, 128 + c.toNat / 64 % 64, 128 + c.toNat % 64]
  else
    [240 + c.toNat / 262144, 128 + c.toNat / 4096 % 64, 128 + c.toNat / 64 % 64,
      128 + c.toNat % 64]

/-- The base64 digit of a number below 64; the last two digits are `+` and `/`. -/
def base64Digit (n : Nat) : Char :=
  "ABCDEFGHIJKLMNOPQRSTUVWXYZabcdefghijklmnopqrstuvwxyz0123456789+/".toList.getD n '='

/-- The base64 digits of a list of bytes, three bytes to four digits, padded with `=`. -/
def base64Bytes : List Nat → List Char
  | [] => []
  | [a] => [base64Digit (a / 4), base64Digit (a % 4 * 16), '=', '=']
  | [a, b] =>
    [base64Digit (a / 4), base64Digit (a % 4 * 16 + b / 16), base64Digit (b % 16 * 4), '=']
  | a :: b :: c :: rest =>
    base64Digit (a / 4) :: base64Digit (a % 4 * 16 + b / 16)
      :: base64Digit (b % 16 * 4 + c / 64) :: base64Digit (c % 64) :: base64Bytes rest

/-- The string `Buffer.from(text).toString('base64')`: the base64 of the UTF-8
bytes of the text. -/
def toBase64 (text : String) : String :=
  String.mk (base64Bytes (text.toList.flatMap utf8Bytes))

/-- A write into a directory `dir` that has no subdirectory: it succeeds for a
path that is `dir`, a slash and a name without a slash, and throws `ENOENT` for
any other path. -/
def flatWrite (dir path : String) : Except JsError Unit :=
  if (dir ++ "/").toList.isPrefixOf path.toList
      ∧ (path.toList.drop (dir.length + 1)).all (fun c => c != '/') = true then
    .ok ()
  else
    .error (JsError.rejected ("ENOENT: no such file or directory, open " ++ path))

/-- A world with one source file, `src/content/docs/a.mdx`, under `/repo`, where
temporary files can be written into `/repo` itself only. -/
def demoWorld : World :=
  { apiUrl := "https://api.vendor.test"
    projectId := "p1"
    user := Prim.str "user"
    secret := Prim.str "secret"
    now := "1/1/2024, 12:00:00 AM"
    cwd := "/repo"
    pathJoin := fun dir name => dir ++ "/" ++ name
    href := fun input base =>
      match input.toList with
      | '/' :: _ => base ++ input
      | _ => base ++ "/" ++ input
    base64 := toBase64
    files := fun path =>
      if path = "/repo/src/content/docs/a.mdx" then some (.ok "# A")
      else if path = "/repo/src/content/docs" then
        some (.error (JsError.rejected "EISDIR: illegal operation on a directory, read"))
      else none
    writeFile := fun path _ => flatWrite "/repo" path
    serializeMDX := fun mdx => "<p>" ++ mdx ++ "</p>" }

/-- A remote end that answers every request with status 200 and one fixed envelope. -/
def constantEnv (response : Envelope) : Env Unit :=
  { fetch := fun _ _ => (⟨200, "", response⟩, ())
    db := fun _ _ => (.ok (JVal.prim Prim.undefined), ())
    getTranslations := fun _ _ => (.ok [], ()) }

/-- The start of a run against a stateless remote end. -/
def start : St Unit := ⟨(), []⟩

/-- A vendor that creates every job and every batch, the batch answer having
the shape `{job_uid, batch_uid}` of section 6, and answers each upload with
`uploadCode`; `batchCode` is the code of its answer to a create-batch call for
the job of a locale other than `jp`. -/
def scenarioAnswer (uploadCode batchCode : Prim) (req : Request) : HttpResponse :=
  match req.body with
  | .credentials _ _ =>
    ⟨200, "", ⟨Prim.str "SUCCESS", JVal.obj [("accessToken", Prim.str "token")]⟩⟩
  | .job _ targetLocaleIds =>
    if targetLocaleIds = [Prim.str "ja-JP"] then
      ⟨200, "", ⟨Prim.str "SUCCESS", JVal.obj [("translationJobUid", Prim.str "job-jp")]⟩⟩
    else
      ⟨200, "", ⟨Prim.str "SUCCESS", JVal.obj [("translationJobUid", Prim.str "job-other")]⟩⟩
  | .batch _ translationJobUid _ =>
    if translationJobUid = Prim.str "job-jp" then
      ⟨200, "", ⟨Prim.str "SUCCESS",
        JVal.obj [("job_uid", Prim.str "job-jp"), ("batch_uid", Prim.str "batch-jp")]⟩⟩
    else
      ⟨200, "", ⟨batchCode,
        JVal.obj [("job_uid", Prim.str "job-other"), ("batch_uid", Prim.str "batch-other")]⟩⟩
  | .fileForm _ _ _ _ => ⟨200, "", ⟨uploadCode, JVal.prim Prim.null⟩⟩
  | .contextForm _ _ _ => ⟨200, "", ⟨Prim.str "SUCCESS", JVal.prim Prim.null⟩⟩
  | .absent => ⟨200, "<html></html>", ⟨Prim.undefined, JVal.prim Prim.undefined⟩⟩
  | .empty => ⟨200, "", ⟨Prim.undefined, JVal.prim Prim.undefined⟩⟩

/-- The queue of the end-to-end scenario of section 8: two pending slugs for
`jp`, of which `missing.mdx` is not on disk. -/
def scenarioStore : Store :=
  { translations :=
      [⟨Prim.num 7, "jp", "src/content/docs/a.mdx", "PENDING"⟩,
        ⟨Prim.num 8, "jp", "src/content/docs/missing.mdx", "PENDING"⟩]
    jobs := []
    translationsJobs := []
    queuedJobUids := [] }

/-- The content of the end-to-end scenario, as `getContent` loads it. -/
def scenarioContent : Obj (Except JsError (List Page)) :=
  getContent demoWorld [("jp", ["src/content/docs/a.mdx", "src/content/docs/missing.mdx"])]

/-- The scenario store once the job and the batch of `jp` have been persisted
and associated with the TranslationRequest of `a.mdx`. -/
def scenarioStoreWithJob : Store :=
  { translations :=
      [⟨Prim.num 7, "jp", "src/content/docs/a.mdx", "PENDING"⟩,
        ⟨Prim.num 8, "jp", "src/content/docs/missing.mdx", "PENDING"⟩]
    jobs := [⟨Prim.num 1, Prim.str "job-jp", Prim.str "batch-jp", "PENDING"⟩]
    translationsJobs := [⟨Prim.num 1, Prim.num 7⟩]
    queuedJobUids := [Prim.str "job-jp"] }

/-- The page of the end-to-end scenario. -/
def scenarioPage : Page := { file := "src/content/docs/a.mdx", html := "<p># A</p>" }

/-- The keys `updateStatus` resolves for one outcome against a store: the `id`
of the Job found for `upload.batchUid` and the TranslationRequest key associated
with it; an error when one of the reads throws. -/
def resolveKey (store : Store) (upload : JVal) : Except JsError (Prim × JVal) :=
  match getProp upload "batchUid" with
  | .error e => .error e
  | .ok batch_uid =>
    match (storeDb store (DbCall.getJobs batch_uid)).1 with
    | .error e => .error e
    | .ok job =>
      match getProp job "id" with
      | .error e => .error e
      | .ok jobId =>
        match (storeDb store (DbCall.getTranslationsJobsRecords jobId)).1 with
        | .error e => .error e
        | .ok translationId => .ok (jobId, translationId)

/-- The keys `updateStatus` resolves against a store, outcome by outcome, up to
the first outcome for which a read throws. -/
def resolvedKeys (store : Store) : List JVal → List (Prim × JVal)
  | [] => []
  | upload :: rest =>
    match resolveKey store upload with
    | .error _ => []
    | .ok key => key :: resolvedKeys store rest

/-- The store in which every Job and every TranslationRequest whose key is among
`keys` has the status `status`, whatever its status was, and nothing else differs. -/
def withStatus (status : String) (keys : List (Prim × JVal)) (store : Store) : Store :=
  { store with
    jobs := store.jobs.map
      (fun job => if job.id ∈ keys.map Prod.fst then { job with status := status } else job)
    translations := store.translations.map
      (fun row =>
        if JVal.prim row.id ∈ keys.map Prod.snd then { row with status := status } else row) }

/-- The scenario store in which the TranslationRequest of `a.mdx` is already
`COMPLETE`. -/
def completedStore : Store :=
  { translations :=
      [⟨Prim.num 7, "jp", "src/content/docs/a.mdx", "COMPLETE"⟩,
        ⟨Prim.num 8, "jp", "src/content/docs/missing.mdx", "PENDING"⟩]
    jobs := [⟨Prim.num 1, Prim.str "job-jp", Prim.str "batch-jp", "IN_PROGRESS"⟩]
    translationsJobs := [⟨Prim.num 1, Prim.num 7⟩]
    queuedJobUids := [Prim.str "job-jp"] }

/-- Whether an event is a file upload, a `fetch` whose body is the upload form. -/
def isUpload : Event → Bool
  | .fetch req =>
    match req.body with
    | .fileForm _ _ _ _ => true
    | _ => false
  | _ => false

/-- A computation that issues no file upload: whatever the state, it only
appends to the trace, and nothing it appends is an upload. -/
def NoUpload {σ α : Type} (m : Eff σ α) : Prop :=
  ∀ s, ∃ new, (m s).2.trace = s.trace ++ new ∧ ∀ ev ∈ new, isUpload ev = false

/-- A content mapping with two locales, one page each. -/
def twoLocales : Obj (Except JsError (List Page)) :=
  [("jp", .ok [scenarioPage]), ("kr", .ok [scenarioPage])]

/-- A page whose file name has a question mark: the base64 of `jp` followed by
its path contains a slash. -/
def whyPage : Page := { file := "src/content/docs/faq/why?.mdx", html := "<p>Why?</p>" }

/-! ## Theorems -/

section EffLemmas

variable {σ α β : Type}

@[simp] theorem pure_run (a : α) (s : St σ) : (pure a : Eff σ α) s = (.ok a, s) := rfl

@[simp] theorem bind_run (m : Eff σ α) (f : α → Eff σ β) (s : St σ) :
    (m >>= f) s =
      (match m s with
      | (.ok a, s1) => f a s1
      | (.error e, s1) => (.error e, s1)) := rfl

@[simp] theorem throwJs_run (e : JsError) (s : St σ) : (throwJs e : Eff σ α) s = (.error e, s) := rfl

@[simp] theorem liftExcept_run (r : Except JsError α) (s : St σ) :
    (liftExcept r : Eff σ α) s = (r, s) := rfl

@[simp] theorem attempt_run (m : Eff σ α) (s : St σ) : attempt m s = (.ok (m s).1, (m s).2) := rfl

@[simp] theorem doFetch_run (env : Env σ) (req : Request) (s : St σ) :
    doFetch env req s =
      (.ok (env.fetch s.env req).1, ⟨(env.fetch s.env req).2, s.trace ++ [Event.fetch req]⟩) := rfl

@[simp] theorem doDb_run (env : Env σ) (call : DbCall) (s : St σ) :
    doDb env call s = ((env.db s.env call).1, ⟨(env.db s.env call).2, s.trace ++ [Event.db call]⟩) := rfl

end EffLemmas

section Retry

variable {σ : Type}

theorem afterFetches_trace (env : Env σ) (req : Request) (n : Nat) (s : St σ) :
    (afterFetches env req n s).trace = s.trace ++ List.replicate n (Event.fetch req) := by
  induction n generalizing s with
  | zero => simp [afterFetches]
  | succ n ih =>
    simp only [afterFetches, ih, doFetch_run, List.replicate_succ, List.append_assoc,
      List.singleton_append]

theorem attemptsUsed_pos (answers : Nat → HttpResponse) : 1 ≤ attemptsUsed answers := by
  unfold attemptsUsed
  split
  · exact le_refl 1
  · split <;> omega

theorem attemptsUsed_le (answers : Nat → HttpResponse) : attemptsUsed answers ≤ 3 := by
  unfold attemptsUsed
  split
  · omega
  · split <;> omega

theorem retryExecute_run (env : Env σ) (req : Request) (s : St σ) :
    retryExecute 3 (fun response => response.status == 429) (doFetch env req) s
      = (.ok (nthResponse env req s (attemptsUsed (nthResponse env req s) - 1)),
          afterFetches env req (attemptsUsed (nthResponse env req s)) s) := by
  by_cases h0 : (env.fetch s.env req).1.status = 429
  · by_cases h1 :
        (env.fetch (env.fetch s.env req).2 req).1.status = 429
    · simp [retryExecute, retryLoop, attemptsUsed, nthResponse, afterFetches, h0, h1]
    · simp [retryExecute, retryLoop, attemptsUsed, nthResponse, afterFetches, h0, h1]
  · simp [retryExecute, retryLoop, attemptsUsed, nthResponse, afterFetches, h0]

theorem makeRequest_run (env : Env σ) (req : Request) (s : St σ) :
    makeRequest env req s
      = (unwrapEnvelope
            (nthResponse env req s (attemptsUsed (nthResponse env req s) - 1)).response,
          afterFetches env req (attemptsUsed (nthResponse env req s)) s) := by
  unfold makeRequest
  simp only [bind_run, retryExecute_run, unwrapEnvelope]
  split <;> simp_all

/-- C4: `makeRequest` calls `fetch` exactly `k` times, `k` being the position of
the first answer whose status is not 429, or 3 when the first three answers all
have status 429: never more than 3 calls, every answer before the `k`-th has
status 429, an answer with another status ends the loop, and the `k`-th answer
is the one whose envelope is parsed. -/
theorem makeRequest_attempts (env : Env σ) (req : Request) (s : St σ) :
    (makeRequest env req s).2.trace
        = s.trace ++ List.replicate (attemptsUsed (nthResponse env req s)) (Event.fetch req)
      ∧ retryExecute 3 (fun response => response.status == 429) (doFetch env req) s
        = (.ok (nthResponse env req s (attemptsUsed (nthResponse env req s) - 1)),
            afterFetches env req (attemptsUsed (nthResponse env req s)) s)
      ∧ (makeRequest env req s).1
        = unwrapEnvelope
            (nthResponse env req s (attemptsUsed (nthResponse env req s) - 1)).response
      ∧ 1 ≤ attemptsUsed (nthResponse env req s)
      ∧ attemptsUsed (nthResponse env req s) ≤ 3
      ∧ (∀ i, i + 1 < attemptsUsed (nthResponse env req s) →
          (nthResponse env req s i).status = 429)
      ∧ (∀ i, i < 3 → (nthResponse env req s i).status ≠ 429 →
          attemptsUsed (nthResponse env req s) ≤ i + 1)
      ∧ (attemptsUsed (nthResponse env req s) < 3 →
          (nthResponse env req s (attemptsUsed (nthResponse env req s) - 1)).status ≠ 429) := by
  refine ⟨?_, retryExecute_run env req s, ?_, attemptsUsed_pos _, attemptsUsed_le _, ?_, ?_, ?_⟩
  · rw [makeRequest_run]
    exact afterFetches_trace env req _ s
  · rw [makeRequest_run]
  · intro i hi
    unfold attemptsUsed at hi
    split at hi
    · omega
    · rename_i h0
      split at hi
      · have hi0 : i = 0 := by omega
        subst hi0
        simpa using h0
      · rename_i h1
        have hi01 : i = 0 ∨ i = 1 := by omega
        rcases hi01 with hi0 | hi1
        · subst hi0
          simpa using h0
        · subst hi1
          simpa using h1
  · intro i hi hne
    unfold attemptsUsed
    split
    · omega
    · rename_i h0
      split
      · have : i ≠ 0 := by
          intro hi0
          subst hi0
          exact h0 hne
        omega
      · rename_i h1
        have h0i : i ≠ 0 := by
          intro hi0
          subst hi0
          exact h0 hne
        have h1i : i ≠ 1 := by
          intro hi1
          subst hi1
          exact h1 hne
        omega
  · intro hlt
    unfold attemptsUsed at hlt ⊢
    split
    · rename_i h0
      simpa using h0
    · rename_i h0
      split
      · rename_i h1
        simpa using h1
      · rename_i h1
        simp [h0, h1] at hlt

end Retry

section Envelope

variable {σ : Type}

theorem unwrapEnvelope_throws_iff (response : Envelope) :
    (∃ e, unwrapEnvelope response = .error e) ↔ response.code ≠ Prim.str "SUCCESS" := by
  unfold unwrapEnvelope
  split <;> simp_all

theorem getAccessToken_run (w : World) (env : Env σ) (s : St σ) :
    getAccessToken w env s
      = (if (parsedEnvelope env (authenticateArgs w) s).code = Prim.str "SUCCESS" then
            getProp (parsedEnvelope env (authenticateArgs w) s).data "accessToken"
          else
            .error (JsError.vendorError (parsedEnvelope env (authenticateArgs w) s).code
              (parsedEnvelope env (authenticateArgs w) s).data),
          afterFetches env (authenticateArgs w)
            (attemptsUsed (nthResponse env (authenticateArgs w) s)) s) := by
  unfold getAccessToken
  simp only [bind_run, makeRequest_run, unwrapEnvelope, parsedEnvelope]
  by_cases h : (nthResponse env (authenticateArgs w) s
      (attemptsUsed (nthResponse env (authenticateArgs w) s) - 1)).response.code = Prim.str "SUCCESS"
  · simp only [h, if_true, liftExcept_run]
    cases getProp _ "accessToken" <;> rfl
  · simp only [h, if_false]

/-- C5, counterexample: with the envelope `{code: 'SUCCESS', data: null}`
`getAccessToken` throws although the code is `'SUCCESS'`, and what it throws is a
`TypeError`, not the serialized envelope; with the envelope
`{code: 'SUCCESS', data: {accessToken: 'token'}}` it returns `'token'`, not `data`. -/
theorem getAccessToken_not_makeRequest :
    (parsedEnvelope (constantEnv ⟨Prim.str "SUCCESS", JVal.prim Prim.null⟩)
        (authenticateArgs demoWorld) start).code = Prim.str "SUCCESS"
      ∧ (getAccessToken demoWorld (constantEnv ⟨Prim.str "SUCCESS", JVal.prim Prim.null⟩) start).1
        = .error (JsError.typeError "Cannot read properties of null (reading accessToken)")
      ∧ (parsedEnvelope
          (constantEnv ⟨Prim.str "SUCCESS", JVal.obj [("accessToken", Prim.str "token")]⟩)
          (authenticateArgs demoWorld) start).data
        = JVal.obj [("accessToken", Prim.str "token")]
      ∧ (getAccessToken demoWorld
          (constantEnv ⟨Prim.str "SUCCESS", JVal.obj [("accessToken", Prim.str "token")]⟩) start).1
        = .ok (Prim.str "token") := by
  refine ⟨rfl, ?_, rfl, ?_⟩
  · rw [getAccessToken_run]
    rfl
  · rw [getAccessToken_run]
    rfl

/-- C5, amended: `makeRequest` and `vendorRequest` throw if and only if the
code of the parsed envelope is not `'SUCCESS'`; what they throw carries the
envelope's `response` object, and otherwise they return exactly `data`.
`getAccessToken` throws the same error when the code is not `'SUCCESS'`;
when it is, it returns the `accessToken` property of `data` (a `TypeError` if
`data` is `null` or `undefined`). -/
theorem makeRequest_unwraps_envelope (w : World) (env : Env σ) (req : Request)
    (o : VendorOptions) (s : St σ) :
    ((makeRequest env req s).1
        = if (parsedEnvelope env req s).code = Prim.str "SUCCESS" then
            .ok (parsedEnvelope env req s).data
          else
            .error (JsError.vendorError (parsedEnvelope env req s).code
              (parsedEnvelope env req s).data))
      ∧ ((∃ e, (makeRequest env req s).1 = .error e)
          ↔ (parsedEnvelope env req s).code ≠ Prim.str "SUCCESS")
      ∧ ((vendorRequest w env o s).1
        = if (parsedEnvelope env (vendorRequestArgs w o) s).code = Prim.str "SUCCESS" then
            .ok (parsedEnvelope env (vendorRequestArgs w o) s).data
          else
            .error (JsError.vendorError (parsedEnvelope env (vendorRequestArgs w o) s).code
              (parsedEnvelope env (vendorRequestArgs w o) s).data))
      ∧ ((∃ e, (vendorRequest w env o s).1 = .error e)
          ↔ (parsedEnvelope env (vendorRequestArgs w o) s).code ≠ Prim.str "SUCCESS")
      ∧ ((getAccessToken w env s).1
        = if (parsedEnvelope env (authenticateArgs w) s).code = Prim.str "SUCCESS" then
            getProp (parsedEnvelope env (authenticateArgs w) s).data "accessToken"
          else
            .error (JsError.vendorError (parsedEnvelope env (authenticateArgs w) s).code
              (parsedEnvelope env (authenticateArgs w) s).data)) := by
  refine ⟨?_, ?_, ?_, ?_, ?_⟩
  · rw [makeRequest_run]
    rfl
  · rw [makeRequest_run]
    exact unwrapEnvelope_throws_iff _
  · unfold vendorRequest
    rw [makeRequest_run]
    rfl
  · unfold vendorRequest
    rw [makeRequest_run]
    exact unwrapEnvelope_throws_iff _
  · rw [getAccessToken_run]

end Envelope

section Content

variable {α : Type}

theorem objSet_new (o : Obj α) (key : String) (v : α) (h : key ∉ objKeys o) :
    objSet o key v = o ++ [(key, v)] := by
  induction o with
  | nil => rfl
  | cons entry rest ih =>
    obtain ⟨k, x⟩ := entry
    simp only [objKeys, List.map_cons, List.mem_cons, not_or] at h
    have hk : ¬ k = key := fun hk => h.1 hk.symm
    simp only [objSet, hk, if_false, List.cons_append, List.cons.injEq, true_and]
    exact ih h.2

theorem foldl_objSet {β : Type} (g : String × β → α) (l : Obj β) (init : Obj α)
    (h : (objKeys init ++ objKeys l).Nodup) :
    l.foldl (fun acc entry => objSet acc entry.1 (g entry)) init
      = init ++ l.map (fun entry => (entry.1, g entry)) := by
  induction l generalizing init with
  | nil => simp
  | cons entry rest ih =>
    have hnew : entry.1 ∉ objKeys init := by
      intro hmem
      have hdis := (List.nodup_append.mp h).2.2
      exact hdis hmem (by simp [objKeys])
    have hnext : (objKeys (init ++ [(entry.1, g entry)]) ++ objKeys rest).Nodup := by
      simpa [objKeys, List.append_assoc] using h
    simp only [List.foldl_cons, objSet_new init entry.1 (g entry) hnew]
    rw [ih _ hnext]
    simp

theorem awaitAll_map_ok {β : Type} (f : β → α) (xs : List β) :
    awaitAll (xs.map (fun x => (Except.ok (f x) : Except JsError α))) = .ok (xs.map f) := by
  induction xs with
  | nil => rfl
  | cons x rest ih => simp [awaitAll, ih]

theorem awaitAll_error_of_mem {α : Type} (rs : List (Except JsError α)) (e : JsError)
    (h : Except.error e ∈ rs) : ∃ e1, awaitAll rs = .error e1 := by
  induction rs with
  | nil => simp at h
  | cons r rest ih =>
    cases r with
    | error e0 => exact ⟨e0, rfl⟩
    | ok a =>
      have hrest : Except.error e ∈ rest := by simpa using h
      obtain ⟨e1, he1⟩ := ih hrest
      exact ⟨e1, by simp [awaitAll, he1]⟩

theorem getContent_eq_map (w : World) (l : Obj (List String)) (h : (objKeys l).Nodup) :
    getContent w l = l.map (fun entry => (entry.1, awaitAll (pagePromises w entry.2))) := by
  unfold getContent
  rw [foldl_objSet (fun entry => awaitAll _) l [] (by simpa [objKeys] using h)]
  rfl

theorem pagePromises_of_readable (w : World) (slugs : List String)
    (hread : ∀ slug ∈ slugs, existsSync w (w.pathJoin w.cwd slug) = true →
      ∃ mdx, readFileSync w (w.pathJoin w.cwd slug) = .ok mdx) :
    awaitAll (pagePromises w slugs) = .ok (loadPages w slugs) := by
  unfold pagePromises loadPages
  rw [← awaitAll_map_ok]
  congr 1
  apply List.map_congr_left
  intro slug hslug
  obtain ⟨hin, hex⟩ := List.mem_filter.mp hslug
  obtain ⟨mdx, hmdx⟩ := hread slug hin hex
  simp only [hmdx]

theorem pagePromises_of_unreadable (w : World) (slugs : List String) (slug : String)
    (e : JsError) (hin : slug ∈ slugs) (hex : existsSync w (w.pathJoin w.cwd slug) = true)
    (hread : readFileSync w (w.pathJoin w.cwd slug) = .error e) :
    ∃ e1, awaitAll (pagePromises w slugs) = .error e1 := by
  apply awaitAll_error_of_mem _ e
  unfold pagePromises
  rw [List.mem_map]
  exact ⟨slug, List.mem_filter.mpr ⟨hin, hex⟩, by simp only [hread]⟩

theorem objGet_map_of_mem {β : Type} (g : String × β → α) (l : Obj β) (h : (objKeys l).Nodup)
    (entry : String × β) (hmem : entry ∈ l) :
    objGet (l.map (fun e => (e.1, g e))) entry.1 = some (g entry) := by
  induction l with
  | nil => simp at hmem
  | cons first rest ih =>
    simp only [objKeys, List.map_cons, List.nodup_cons] at h
    rcases List.mem_cons.mp hmem with heq | hrest
    · subst heq
      simp [objGet]
    · have hne : ¬ first.1 = entry.1 := by
        intro hk
        apply h.1
        rw [hk]
        exact List.mem_map_of_mem Prod.fst hrest
      have := ih h.2 hrest
      simpa [objGet, hne] using this

end Content

/-- C3, counterexample: the slug `src/content/docs` exists on disk, it is the
directory that holds `a.mdx`, so the filter keeps it; reading it throws, and the
promise of the locale rejects instead of resolving to a page list. -/
theorem getContent_rejects_on_directory :
    existsSync demoWorld (demoWorld.pathJoin demoWorld.cwd "src/content/docs") = true
      ∧ objGet (getContent demoWorld [("jp", ["src/content/docs/a.mdx", "src/content/docs"])])
          "jp"
        = some (.error (JsError.rejected "EISDIR: illegal operation on a directory, read")) :=
  ⟨rfl, rfl⟩

/-- C3, amended: for a queue with distinct locale keys, `getContent` returns an
object with the same keys in the same order. For a locale whose slugs that exist
can all be read, the promise resolves to one page per slug that exists on disk,
in the order of the slugs, `file` being the slug and `html` the serialized
contents of the file, and no page is built for a slug that does not exist. For a
locale with a slug that exists and whose read throws, the promise rejects. -/
theorem getContent_pages (w : World) (l : Obj (List String)) (hkeys : (objKeys l).Nodup) :
    objKeys (getContent w l) = objKeys l
      ∧ ∀ locale slugs, (locale, slugs) ∈ l →
        ((∀ slug ∈ slugs, existsSync w (w.pathJoin w.cwd slug) = true →
            ∃ mdx, readFileSync w (w.pathJoin w.cwd slug) = .ok mdx) →
          ∃ pages, objGet (getContent w l) locale = some (.ok pages)
            ∧ pages.map Page.file
              = slugs.filter (fun slug => existsSync w (w.pathJoin w.cwd slug))
            ∧ (∀ page ∈ pages, ∃ mdx,
                readFileSync w (w.pathJoin w.cwd page.file) = .ok mdx
                  ∧ page.html = w.serializeMDX mdx)
            ∧ (∀ slug, existsSync w (w.pathJoin w.cwd slug) = false →
                ∀ page ∈ pages, page.file ≠ slug))
        ∧ ((∃ slug ∈ slugs, ∃ e, existsSync w (w.pathJoin w.cwd slug) = true
              ∧ readFileSync w (w.pathJoin w.cwd slug) = .error e) →
            ∃ e, objGet (getContent w l) locale = some (.error e)) := by
  rw [getContent_eq_map w l hkeys]
  refine ⟨by simp [objKeys, Function.comp_def], ?_⟩
  intro locale slugs hmem
  have hget := objGet_map_of_mem (fun e => awaitAll (pagePromises w e.2)) l hkeys
    (locale, slugs) hmem
  simp only at hget
  constructor
  · intro hread
    refine ⟨loadPages w slugs, ?_, ?_, ?_, ?_⟩
    · rw [hget, pagePromises_of_readable w slugs hread]
    · simp [loadPages, Function.comp_def]
    · intro page hpage
      simp only [loadPages, List.mem_map, List.mem_filter] at hpage
      obtain ⟨slug, ⟨hin, hex⟩, rfl⟩ := hpage
      obtain ⟨mdx, hmdx⟩ := hread slug hin hex
      exact ⟨mdx, hmdx, by simp only [hmdx]⟩
    · intro slug hmissing page hpage hfile
      simp only [loadPages, List.mem_map, List.mem_filter] at hpage
      obtain ⟨slug2, ⟨_, hex⟩, rfl⟩ := hpage
      simp only at hfile
      rw [hfile, hmissing] at hex
      exact Bool.false_ne_true hex
  · rintro ⟨slug, hin, e, hex, hread⟩
    obtain ⟨e1, he1⟩ := pagePromises_of_unreadable w slugs slug e hin hex hread
    exact ⟨e1, by rw [hget, he1]⟩

/-- C3, witness: the queue of the end-to-end scenario of the specification. -/
theorem getContent_pages_witness :
    objKeys (getContent demoWorld
        [("jp", ["src/content/docs/a.mdx", "src/content/docs/missing.mdx"])])
      = ["jp"]
      ∧ objGet (getContent demoWorld
          [("jp", ["src/content/docs/a.mdx", "src/content/docs/missing.mdx"])]) "jp"
        = some (.ok [{ file := "src/content/docs/a.mdx", html := "<p># A</p>" }]) := by
  have h := getContent_pages demoWorld
    [("jp", ["src/content/docs/a.mdx", "src/content/docs/missing.mdx"])] (by decide)
  exact ⟨h.1, rfl⟩

section Upload

variable {σ : Type}

theorem sendPageContext_ok (w : World) (env : Env σ) (fileUri : String) (accessToken : Prim)
    (s : St σ) : (sendPageContext w env fileUri accessToken s).1 = .ok () := by
  simp [sendPageContext]

theorem bind_const_fst {α β : Type} (m : Eff σ α) (b : β) (s : St σ) (a : α)
    (h : (m s).1 = .ok a) : ((m >>= fun _ => (pure b : Eff σ β)) s).1 = .ok b := by
  simp only [bind_run]
  cases hm : m s with
  | mk r s1 =>
    rw [hm] at h
    simp only at h
    subst h
    rfl

theorem uploadFile_ok (w : World) (env : Env σ) (locale batchUid accessToken : Prim)
    (page : Page) (s : St σ)
    (hwrite : w.writeFile (uploadFilePath w locale page) page.html = .ok ()) :
    (uploadFile w env locale batchUid accessToken page s).1
      = .ok (JVal.obj
          [("code", (env.fetch s.env (uploadFileArgs w locale batchUid accessToken page)).1.response.code),
            ("locale", locale), ("slug", Prim.str page.file)]) := by
  unfold uploadFilePath at hwrite
  unfold uploadFile
  simp only [bind_run, writeFileSync, hwrite, doFetch_run]
  split
  · exact bind_const_fst _ _ _ () (sendPageContext_ok w env page.file accessToken _)
  · rfl

theorem uploadFile_write_throws (w : World) (env : Env σ) (locale batchUid accessToken : Prim)
    (page : Page) (s : St σ) (e : JsError)
    (hwrite : w.writeFile (uploadFilePath w locale page) page.html = .error e) :
    uploadFile w env locale batchUid accessToken page s = (.error e, s) := by
  unfold uploadFilePath at hwrite
  unfold uploadFile
  simp only [bind_run, writeFileSync, hwrite]

theorem mapWithIndex_attempt {α β : Type} (f : α → Eff σ β) (xs : List α)
    (hf : ∀ x ∈ xs, ∀ s, ∃ y, (f x s).1 = .ok y) (idx : Nat) (s : St σ) :
    ∃ (ys : List β) (s1 : St σ), mapWithIndex (fun _ x => attempt (f x)) idx xs s
        = (.ok (ys.map (fun y => (Except.ok y : Except JsError β))), s1)
      ∧ ys.length = xs.length := by
  induction xs generalizing idx s with
  | nil => exact ⟨[], s, rfl, rfl⟩
  | cons x rest ih =>
    obtain ⟨y, hy⟩ := hf x (List.mem_cons_self x rest) s
    obtain ⟨ys, s1, hrest, hlen⟩ :=
      ih (fun z hz => hf z (List.mem_cons_of_mem x hz)) (idx + 1) (f x s).2
    refine ⟨y :: ys, s1, ?_, by simp [hlen]⟩
    simp only [mapWithIndex, bind_run, attempt_run, hrest, hy, pure_run, List.map_cons]

theorem awaitAll_map_ok_id {α : Type} (ys : List α) :
    awaitAll (ys.map (fun y => (Except.ok y : Except JsError α))) = .ok ys := by
  have h := awaitAll_map_ok (fun y : α => y) ys
  simpa using h

theorem map_ok_flatten {α : Type} (nested : List (List α)) :
    (nested.map (fun ys => ys.map (fun y => (Except.ok y : Except JsError α)))).flatten
      = nested.flatten.map (fun y => (Except.ok y : Except JsError α)) := by
  induction nested with
  | nil => rfl
  | cons ys rest ih =>
    simp only [List.map_cons, List.flatten_cons, List.map_append, ih]

theorem upload_promises_fulfilled (w : World) (env : Env σ)
    (content : Obj (Except JsError (List Page))) (pages : List (List Page)) (accessToken : Prim)
    (hwrites : ∀ (locale : Prim), ∀ pagesAtIdx ∈ pages, ∀ page ∈ pagesAtIdx,
      w.writeFile (uploadFilePath w locale page) page.html = .ok ())
    (batchUids : List Prim) (idx : Nat) (s : St σ) (hlen : idx + batchUids.length ≤ pages.length) :
    ∃ (nested : List (List JVal)) (s1 : St σ),
      mapWithIndex (uploadBatch w env content pages accessToken) idx batchUids s
        = (.ok (nested.map (fun ys => ys.map (fun y => (Except.ok y : Except JsError JVal)))), s1) := by
  induction batchUids generalizing idx s with
  | nil => exact ⟨[], s, rfl⟩
  | cons batchUid rest ih =>
    simp only [List.length_cons] at hlen
    have hidx : idx < pages.length := by omega
    obtain ⟨ys, s1, hys, _⟩ := mapWithIndex_attempt
      (uploadFile w env
        (match (objKeys content)[idx]? with
          | some key => Prim.str key
          | none => Prim.undefined) batchUid accessToken) pages[idx]
      (fun page hpage s0 => ⟨_, uploadFile_ok w env _ batchUid accessToken page s0
        (hwrites _ pages[idx] (List.getElem_mem hidx) page hpage)⟩) 0 s
    obtain ⟨nested, s2, hnested⟩ := ih (idx + 1) s1 (by omega)
    refine ⟨ys :: nested, s2, ?_⟩
    have hhead : uploadBatch w env content pages accessToken idx batchUid s
        = (.ok (ys.map (fun y => (Except.ok y : Except JsError JVal))), s1) := by
      unfold uploadBatch
      simp only [List.getElem?_eq_getElem hidx, dispatchAll]
      exact hys
    simp only [mapWithIndex, bind_run, hhead, hnested, pure_run, List.map_cons]

theorem mapWithIndex_length {α β : Type} (f : Nat → α → Eff σ β) (xs : List α) (idx : Nat)
    (s s1 : St σ) (ys : List β) (h : mapWithIndex f idx xs s = (.ok ys, s1)) :
    ys.length = xs.length := by
  induction xs generalizing idx s s1 ys with
  | nil =>
    simp only [mapWithIndex, pure_run, Prod.mk.injEq, Except.ok.injEq] at h
    obtain ⟨rfl, _⟩ := h
    rfl
  | cons x rest ih =>
    simp only [mapWithIndex, bind_run] at h
    split at h
    · rename_i y s2 _
      split at h
      · rename_i zs s3 hrest
        simp only [pure_run, Prod.mk.injEq, Except.ok.injEq] at h
        obtain ⟨rfl, _⟩ := h
        rw [List.length_cons, List.length_cons, ih (idx + 1) s2 s3 zs hrest]
      · cases h
    · cases h

theorem dispatchAll_results {α β : Type} (f : α → Eff σ β) (xs : List α) (idx : Nat)
    (s s1 : St σ) (rs : List (Except JsError β))
    (h : mapWithIndex (fun _ x => attempt (f x)) idx xs s = (.ok rs, s1)) :
    List.Forall₂ (fun x r => ∃ sa, r = (f x sa).1) xs rs := by
  induction xs generalizing idx s s1 rs with
  | nil =>
    simp only [mapWithIndex, pure_run, Prod.mk.injEq, Except.ok.injEq] at h
    obtain ⟨rfl, _⟩ := h
    exact List.Forall₂.nil
  | cons x rest ih =>
    simp only [mapWithIndex, bind_run, attempt_run] at h
    split at h
    · rename_i zs s3 hrest
      simp only [pure_run, Prod.mk.injEq, Except.ok.injEq] at h
      obtain ⟨rfl, _⟩ := h
      exact List.Forall₂.cons ⟨s, rfl⟩ (ih (idx + 1) _ s3 zs hrest)
    · cases h

/-- C6, counterexample: for the locale `jp` and the page
`src/content/docs/faq/why?.mdx` the base64 name of the temporary file contains a
slash, so in a working directory without that subdirectory `fs.writeFileSync`
throws `ENOENT`: `uploadFile` throws before any request is made, although the
vendor answers that upload with `ACCEPTED`, and `Promise.all` over the uploads of
the batch, the page `a.mdx` included, rejects. -/
theorem uploadFile_throws_when_write_fails :
    toBase64 "jpsrc/content/docs/faq/why?.mdx" = "anBzcmMvY29udGVudC9kb2NzL2ZhcS93aHk/Lm1keA=="
      ∧ (scenarioAnswer (Prim.str "ACCEPTED") (Prim.str "SUCCESS")
          (uploadFileArgs demoWorld (Prim.str "jp") (Prim.str "batch-jp") (Prim.str "token")
            whyPage)).response.code = Prim.str "ACCEPTED"
      ∧ (uploadFile demoWorld (storeEnv (scenarioAnswer (Prim.str "ACCEPTED") (Prim.str "SUCCESS")))
          (Prim.str "jp") (Prim.str "batch-jp") (Prim.str "token") whyPage
          ⟨scenarioStoreWithJob, []⟩).1
        = .error (JsError.rejected
            "ENOENT: no such file or directory, open /repo/anBzcmMvY29udGVudC9kb2NzL2ZhcS93aHk/Lm1keA==.html")
      ∧ (uploadFile demoWorld (storeEnv (scenarioAnswer (Prim.str "ACCEPTED") (Prim.str "SUCCESS")))
          (Prim.str "jp") (Prim.str "batch-jp") (Prim.str "token") whyPage
          ⟨scenarioStoreWithJob, []⟩).2.trace = []
      ∧ ((fileRequests demoWorld
            (storeEnv (scenarioAnswer (Prim.str "ACCEPTED") (Prim.str "SUCCESS")))
            scenarioContent [[scenarioPage, whyPage]]
            [JVal.obj [("batchUid", Prim.str "batch-jp")]] (Prim.str "token")
            ⟨scenarioStoreWithJob, []⟩).1.bind awaitAll)
        = .error (JsError.rejected
            "ENOENT: no such file or directory, open /repo/anBzcmMvY29udGVudC9kb2NzL2ZhcS93aHk/Lm1keA==.html") :=
  ⟨by decide, rfl, rfl, rfl, rfl⟩

/-- C6, amended: when `fs.writeFileSync` of the temporary file succeeds,
`uploadFile` returns normally, whatever the envelope code `c` and the HTTP status
of the answer to the upload, and returns `{code: c, locale, slug: page.file}`;
when the write throws, `uploadFile` throws that error and makes no request, and
`Promise.all` over uploads of which one is of such a page rejects. When the
batch responses are objects, one per page list, and every temporary file can be
written, every promise of `fileRequests` is fulfilled, so that
`Promise.all(fileRequests)` resolves to the outcomes whatever their codes. -/
theorem uploadFile_returns_outcome (w : World) (env : Env σ) (locale batchUid accessToken : Prim)
    (page : Page) (s : St σ) (content : Obj (Except JsError (List Page)))
    (pages : List (List Page)) (batchResponses : List JVal) (batchUids : List Prim)
    (hbatch : batchResponses.mapM (fun resp => getProp resp "batchUid") = .ok batchUids)
    (hlen : batchUids.length ≤ pages.length) :
    (w.writeFile (uploadFilePath w locale page) page.html = .ok () →
        (uploadFile w env locale batchUid accessToken page s).1
          = .ok (JVal.obj
              [("code",
                  (env.fetch s.env
                    (uploadFileArgs w locale batchUid accessToken page)).1.response.code),
                ("locale", locale), ("slug", Prim.str page.file)]))
      ∧ (∀ e, w.writeFile (uploadFilePath w locale page) page.html = .error e →
          uploadFile w env locale batchUid accessToken page s = (.error e, s))
      ∧ (∀ (batch : List Page) (results : List (Except JsError JVal)) (s1 : St σ),
          dispatchAll batch (uploadFile w env locale batchUid accessToken) s = (.ok results, s1) →
          (∃ failing ∈ batch, ∃ e,
            w.writeFile (uploadFilePath w locale failing) failing.html = .error e) →
          ∃ e, awaitAll results = .error e)
      ∧ ((∀ (locale : Prim), ∀ pagesAtIdx ∈ pages, ∀ page ∈ pagesAtIdx,
            w.writeFile (uploadFilePath w locale page) page.html = .ok ()) →
          ∃ outcomes : List JVal,
            (fileRequests w env content pages batchResponses accessToken s).1
                = .ok (outcomes.map (fun y => (Except.ok y : Except JsError JVal)))
              ∧ awaitAll (outcomes.map (fun y => (Except.ok y : Except JsError JVal)))
                = .ok outcomes) := by
  refine ⟨uploadFile_ok w env locale batchUid accessToken page s,
    fun e he => uploadFile_write_throws w env locale batchUid accessToken page s e he, ?_, ?_⟩
  · rintro batch results s1 hrun ⟨failing, hin, e, he⟩
    have hall := dispatchAll_results (uploadFile w env locale batchUid accessToken) batch 0 s s1
      results hrun
    apply awaitAll_error_of_mem results e
    clear hrun
    induction hall with
    | nil => simp at hin
    | cons hhead _ ih =>
      rcases List.mem_cons.mp hin with heq | hrest
      · subst heq
        obtain ⟨sa, hsa⟩ := hhead
        rw [uploadFile_write_throws w env locale batchUid accessToken failing sa e he] at hsa
        rw [hsa]
        exact List.mem_cons_self _ _
      · exact List.mem_cons_of_mem _ (ih hrest)
  · intro hwrites
    obtain ⟨nested, s1, hnested⟩ :=
      upload_promises_fulfilled w env content pages accessToken hwrites batchUids 0 s (by omega)
    refine ⟨nested.flatten, ?_, awaitAll_map_ok_id _⟩
    unfold fileRequests
    simp only [bind_run, liftExcept_run, hbatch, hnested, pure_run, map_ok_flatten]

/-- C6, witness: an upload answered `REJECTED` with status 200 in the scenario,
the temporary file being written. -/
theorem uploadFile_returns_outcome_witness :
    demoWorld.writeFile (uploadFilePath demoWorld (Prim.str "jp") scenarioPage) scenarioPage.html
        = .ok ()
      ∧ (uploadFile demoWorld (storeEnv (scenarioAnswer (Prim.str "REJECTED") (Prim.str "SUCCESS")))
          (Prim.str "jp") (Prim.str "batch-jp") (Prim.str "token") scenarioPage
          ⟨scenarioStoreWithJob, []⟩).1
        = .ok (JVal.obj [("code", Prim.str "REJECTED"), ("locale", Prim.str "jp"),
            ("slug", Prim.str "src/content/docs/a.mdx")]) :=
  ⟨rfl, (uploadFile_returns_outcome demoWorld
    (storeEnv (scenarioAnswer (Prim.str "REJECTED") (Prim.str "SUCCESS")))
    (Prim.str "jp") (Prim.str "batch-jp") (Prim.str "token") scenarioPage
    ⟨scenarioStoreWithJob, []⟩ scenarioContent [[scenarioPage]]
    [JVal.obj [("batchUid", Prim.str "batch-jp")]] [Prim.str "batch-jp"] rfl (by decide)).1 rfl⟩

end Upload

section Run

variable {σ : Type}

theorem sendContentToVendor_throws (w : World) (env : Env σ)
    (content : Obj (Except JsError (List Page))) (accessToken : Prim) (s : St σ) :
    ∃ e, (sendContentToVendor w env content accessToken s).1 = .error e := by
  simp only [sendContentToVendor, bind_run, logJobRecords, throwJs_run]
  repeat' split
  all_goals exact ⟨_, rfl⟩

theorem main_exit_code (w : World) (env : Env σ) (s : St σ) (code : Nat)
    (h : (main w env s).1 = .ok code) : code = 1 := by
  simp only [main, bind_run, tryCatch] at h
  split at h
  · rename_i pendingJobs s1 hpending
    split at h
    · rename_i exitCode s2 htry
      split at htry
      · rename_i accessToken s3 htoken
        obtain ⟨e, he⟩ := sendContentToVendor_throws w env
          (getContent w (listByLocale pendingJobs)) accessToken s3
        split at htry
        · rename_i fileResponses s4 hsend
          rw [hsend] at he
          cases he
        · cases htry
      · cases htry
    · simp only [pure_run] at h
      cases h
      rfl
  · cases h

/-- C1, evaluated at the end-to-end scenario of section 8 with a vendor that
answers every call with success and the one upload with `ACCEPTED`:
`sendContentToVendor` throws the `ReferenceError` of its logging line after the
batch has been persisted, before any upload, and `main` exits with code 1,
although the upload promises built from the same batch response all resolve to an
`ACCEPTED` outcome. -/
theorem main_exits_1_when_vendor_accepts_all :
    (main demoWorld (storeEnv (scenarioAnswer (Prim.str "ACCEPTED") (Prim.str "SUCCESS")))
        ⟨scenarioStore, []⟩).1 = .ok 1
      ∧ (sendContentToVendor demoWorld
          (storeEnv (scenarioAnswer (Prim.str "ACCEPTED") (Prim.str "SUCCESS")))
          scenarioContent (Prim.str "token") ⟨scenarioStore, []⟩).1
        = .error (JsError.referenceError "jobRecords")
      ∧ (fileRequests demoWorld
          (storeEnv (scenarioAnswer (Prim.str "ACCEPTED") (Prim.str "SUCCESS")))
          scenarioContent [[scenarioPage]]
          [JVal.obj [("job_uid", Prim.str "job-jp"), ("batch_uid", Prim.str "batch-jp")]]
          (Prim.str "token") ⟨scenarioStoreWithJob, []⟩).1
        = .ok [.ok (JVal.obj [("code", Prim.str "ACCEPTED"), ("locale", Prim.str "jp"),
            ("slug", Prim.str "src/content/docs/a.mdx")])] :=
  ⟨rfl, rfl, rfl⟩

/-- C7, evaluated at the create-batch answer `{job_uid: 'job-jp', batch_uid:
'batch-jp'}`: the loop over `addJob` persists the batch identifier `'batch-jp'`
read from `batch_uid`, while the upload stage reads `batchUid`, passes
`undefined` to `uploadFile` and posts to `.../batches/undefined/file`. -/
theorem uploadFile_gets_other_batchUid_than_addJob :
    (persistBatches (storeEnv (scenarioAnswer (Prim.str "ACCEPTED") (Prim.str "SUCCESS")))
        [JVal.obj [("job_uid", Prim.str "job-jp"), ("batch_uid", Prim.str "batch-jp")]]
        ⟨scenarioStore, []⟩).2.trace
      = [Event.db (DbCall.addJob (Prim.str "job-jp") (Prim.str "batch-jp") "PENDING")]
      ∧ ((fileRequests demoWorld
          (storeEnv (scenarioAnswer (Prim.str "ACCEPTED") (Prim.str "SUCCESS")))
          scenarioContent [[scenarioPage]]
          [JVal.obj [("job_uid", Prim.str "job-jp"), ("batch_uid", Prim.str "batch-jp")]]
          (Prim.str "token") ⟨scenarioStoreWithJob, []⟩).2.trace.take 2
        = [Event.writeFile "/repo/anBzcmMvY29udGVudC9kb2NzL2EubWR4.html" "<p># A</p>",
            Event.fetch (uploadFileArgs demoWorld (Prim.str "jp") Prim.undefined
              (Prim.str "token") scenarioPage)])
      ∧ (uploadFileArgs demoWorld (Prim.str "jp") Prim.undefined (Prim.str "token")
          scenarioPage).url
        = "https://api.vendor.test/job-batches-api/v2/projects/p1/batches/undefined/file" :=
  ⟨rfl, rfl, rfl⟩

/-- C8, evaluated at the `ACCEPTED` outcome `uploadFile` returns for a file
uploaded to the batch `'batch-jp'`, with a store that holds the Job of that batch:
the outcome has no `batchUid`, so `updateStatus` calls `getJobs` with
`batch_uid` `undefined`, finds no Job, throws a `TypeError`, and the store is
left as it was, Job and TranslationRequest still `PENDING`. -/
theorem updateStatus_looks_up_undefined_batch :
    (uploadFile demoWorld (storeEnv (scenarioAnswer (Prim.str "ACCEPTED") (Prim.str "SUCCESS")))
        (Prim.str "jp") (Prim.str "batch-jp") (Prim.str "token") scenarioPage
        ⟨scenarioStoreWithJob, []⟩).1
      = .ok (JVal.obj [("code", Prim.str "ACCEPTED"), ("locale", Prim.str "jp"),
          ("slug", Prim.str "src/content/docs/a.mdx")])
      ∧ (updateStatus (storeEnv (scenarioAnswer (Prim.str "ACCEPTED") (Prim.str "SUCCESS")))
          [JVal.obj [("code", Prim.str "ACCEPTED"), ("locale", Prim.str "jp"),
            ("slug", Prim.str "src/content/docs/a.mdx")]]
          "IN_PROGRESS" ⟨scenarioStoreWithJob, []⟩).2.trace
        = [Event.db (DbCall.getJobs Prim.undefined)]
      ∧ (updateStatus (storeEnv (scenarioAnswer (Prim.str "ACCEPTED") (Prim.str "SUCCESS")))
          [JVal.obj [("code", Prim.str "ACCEPTED"), ("locale", Prim.str "jp"),
            ("slug", Prim.str "src/content/docs/a.mdx")]]
          "IN_PROGRESS" ⟨scenarioStoreWithJob, []⟩).1
        = .error (JsError.typeError "Cannot read properties of undefined (reading id)")
      ∧ (updateStatus (storeEnv (scenarioAnswer (Prim.str "ACCEPTED") (Prim.str "SUCCESS")))
          [JVal.obj [("code", Prim.str "ACCEPTED"), ("locale", Prim.str "jp"),
            ("slug", Prim.str "src/content/docs/a.mdx")]]
          "IN_PROGRESS" ⟨scenarioStoreWithJob, []⟩).2.env
        = scenarioStoreWithJob :=
  ⟨rfl, rfl, rfl, rfl⟩

end Run

section Batches

variable {σ : Type}

theorem makeRequest_trace (env : Env σ) (req : Request) (s : St σ) :
    ∃ k, 1 ≤ k ∧ k ≤ 3
      ∧ (makeRequest env req s).2.trace = s.trace ++ List.replicate k (Event.fetch req) :=
  ⟨attemptsUsed (nthResponse env req s), attemptsUsed_pos _, attemptsUsed_le _, by
    rw [makeRequest_run]
    exact afterFetches_trace env req _ s⟩

theorem awaitAll_ok_map {α : Type} (rs : List (Except JsError α)) (ys : List α)
    (h : awaitAll rs = .ok ys) : rs = ys.map (fun y => (Except.ok y : Except JsError α)) := by
  induction rs generalizing ys with
  | nil =>
    simp only [awaitAll, Except.ok.injEq] at h
    subst h
    rfl
  | cons r rest ih =>
    cases r with
    | error e => simp [awaitAll] at h
    | ok a =>
      cases hrest : awaitAll rest with
      | error e => simp [awaitAll, hrest] at h
      | ok zs =>
        simp only [awaitAll, hrest, Except.ok.injEq] at h
        subst h
        simp only [List.map_cons, List.cons.injEq, true_and]
        exact ih zs hrest

theorem awaitAll_eq_ok {α : Type} (rs : List (Except JsError α)) (ys : List α) :
    awaitAll rs = .ok ys ↔ rs = ys.map (fun y => (Except.ok y : Except JsError α)) :=
  ⟨awaitAll_ok_map rs ys, fun h => by rw [h]; exact awaitAll_map_ok_id ys⟩

theorem mapM_ok_forall₂ {α β : Type} (f : α → Except JsError β) (xs : List α) (ys : List β)
    (h : xs.mapM f = .ok ys) : List.Forall₂ (fun x y => f x = .ok y) xs ys := by
  induction xs generalizing ys with
  | nil =>
    simp only [List.mapM_nil] at h
    cases h
    exact List.Forall₂.nil
  | cons x rest ih =>
    simp only [List.mapM_cons] at h
    cases hx : f x with
    | error e =>
      rw [hx] at h
      cases h
    | ok y =>
      rw [hx] at h
      cases hrest : rest.mapM f with
      | error e =>
        rw [hrest] at h
        cases h
      | ok zs =>
        rw [hrest] at h
        cases h
        exact List.Forall₂.cons hx (ih zs hrest)

theorem createBatch_trace (w : World) (env : Env σ) (pages : List (List Page)) (accessToken : Prim)
    (idx : Nat) (jobUid : Prim) (s : St σ) (pagesAtIdx : List Page)
    (h : pages[idx]? = some pagesAtIdx) :
    ∃ r s1 k, createBatch w env pages accessToken idx jobUid s = (.ok r, s1) ∧ 1 ≤ k
      ∧ s1.trace = s.trace ++ List.replicate k
          (Event.fetch (vendorRequestArgs w (batchOptions w accessToken jobUid pagesAtIdx))) := by
  obtain ⟨k, hk1, _, hk⟩ :=
    makeRequest_trace env (vendorRequestArgs w (batchOptions w accessToken jobUid pagesAtIdx)) s
  refine ⟨(makeRequest env (vendorRequestArgs w (batchOptions w accessToken jobUid pagesAtIdx)) s).1,
    (makeRequest env (vendorRequestArgs w (batchOptions w accessToken jobUid pagesAtIdx)) s).2,
    k, ?_, hk1, hk⟩
  simp only [createBatch, h, attempt_run, vendorRequest]

theorem createBatches_trace (w : World) (env : Env σ) (pages : List (List Page))
    (accessToken : Prim) (jobUids : List Prim) (idx : Nat) (s : St σ)
    (hlen : idx + jobUids.length ≤ pages.length) :
    ∃ rs s1 new, mapWithIndex (createBatch w env pages accessToken) idx jobUids s = (.ok rs, s1)
      ∧ s1.trace = s.trace ++ new
      ∧ ∀ ev, ev ∈ new ↔ ∃ i jobUid pagesAtIdx, jobUids[i]? = some jobUid
          ∧ pages[idx + i]? = some pagesAtIdx
          ∧ ev = Event.fetch (vendorRequestArgs w (batchOptions w accessToken jobUid pagesAtIdx)) := by
  induction jobUids generalizing idx s with
  | nil =>
    refine ⟨[], s, [], rfl, by simp, ?_⟩
    intro ev
    simp
  | cons jobUid rest ih =>
    simp only [List.length_cons] at hlen
    have hidx : idx < pages.length := by omega
    obtain ⟨r, s1, k, hhead, hk, htrace⟩ := createBatch_trace w env pages accessToken idx jobUid s
      pages[idx] (List.getElem?_eq_getElem hidx)
    obtain ⟨rs, s2, new, hrest, htrace2, hmem⟩ := ih (idx + 1) s1 (by omega)
    refine ⟨r :: rs, s2, List.replicate k
      (Event.fetch (vendorRequestArgs w (batchOptions w accessToken jobUid pages[idx]))) ++ new,
      ?_, ?_, ?_⟩
    · simp only [mapWithIndex, bind_run, hhead, hrest, pure_run]
    · rw [htrace2, htrace, List.append_assoc]
    · intro ev
      simp only [List.mem_append, List.mem_replicate, hmem]
      constructor
      · rintro (⟨_, rfl⟩ | ⟨i, j, ps, hj, hps, rfl⟩)
        · exact ⟨0, jobUid, pages[idx], by simp, List.getElem?_eq_getElem hidx, rfl⟩
        · refine ⟨i + 1, j, ps, by simpa using hj, ?_, rfl⟩
          rw [← hps]
          congr 1
          omega
      · rintro ⟨i, j, ps, hj, hps, rfl⟩
        cases i with
        | zero =>
          left
          simp only [List.getElem?_cons_zero, Option.some.injEq] at hj
          subst hj
          rw [Nat.add_zero, List.getElem?_eq_getElem hidx, Option.some.injEq] at hps
          subst hps
          exact ⟨by omega, rfl⟩
        | succ i =>
          right
          refine ⟨i, j, ps, by simpa using hj, ?_, rfl⟩
          rw [← hps]
          congr 1
          omega

theorem persistBatches_trace (env : Env σ) (responses : List JVal) (s : St σ) :
    ∃ dbs, (persistBatches env responses s).2.trace = s.trace ++ dbs
      ∧ ∀ ev ∈ dbs, ∃ call, ev = Event.db call := by
  induction responses generalizing s with
  | nil => exact ⟨[], by simp [persistBatches], by simp⟩
  | cons response rest ih =>
    simp only [persistBatches, bind_run, liftExcept_run, doDb_run]
    cases getProp response "job_uid" with
    | error e => exact ⟨[], by simp, by simp⟩
    | ok job_uid =>
      cases getProp response "batch_uid" with
      | error e => exact ⟨[], by simp, by simp⟩
      | ok batch_uid =>
        simp only
        cases hdb : (env.db s.env (DbCall.addJob job_uid batch_uid "PENDING")).1 with
        | error e =>
          exact ⟨[Event.db (DbCall.addJob job_uid batch_uid "PENDING")], rfl, by simp⟩
        | ok v =>
          simp only
          obtain ⟨dbs, htrace, hdbs⟩ := ih
            ⟨(env.db s.env (DbCall.addJob job_uid batch_uid "PENDING")).2,
              s.trace ++ [Event.db (DbCall.addJob job_uid batch_uid "PENDING")]⟩
          refine ⟨Event.db (DbCall.addJob job_uid batch_uid "PENDING") :: dbs, ?_, ?_⟩
          · rw [htrace]
            simp
          · intro ev hev
            rcases List.mem_cons.mp hev with rfl | hin
            · exact ⟨_, rfl⟩
            · exact hdbs ev hin

theorem mapM_ok_getElem? {α β : Type} (f : α → Except JsError β) (xs : List α) (ys : List β)
    (h : xs.mapM f = .ok ys) (i : Nat) (y : β) :
    ys[i]? = some y ↔ ∃ x, xs[i]? = some x ∧ f x = .ok y := by
  have hF := mapM_ok_forall₂ f xs ys h
  clear h
  induction hF generalizing i with
  | nil => simp
  | cons hxy _ ih =>
    cases i with
    | zero =>
      simp only [List.getElem?_cons_zero, Option.some.injEq, exists_eq_left', hxy, Except.ok.injEq]
    | succ i =>
      simp only [List.getElem?_cons_succ]
      exact ih i

/-- C2: when every create-job call has succeeded, every queue record has been
written and every content promise has resolved, the requests that
`sendContentToVendor` issues from then on are exactly the create-batch requests
of the locales: for the locale at each position `idx` of the content mapping, one
whose `fileUris` are the files of the pages that locale's content promise
resolved to, in the same order, and whose `translationJobUid` is the
`translationJobUid` of the data that the create-job request at the same
position, the one for that locale, returned. -/
theorem createBatch_requests_match_content (w : World) (env : Env σ)
    (content : Obj (Except JsError (List Page))) (accessToken : Prim) (s s1 s2 : St σ)
    (jobResults : List (Except JsError JVal)) (jobsResponses : List JVal) (jobUids : List Prim)
    (records : List JVal) (pages : List (List Page))
    (hjobs : dispatchAll (objKeys content)
        (fun locale => vendorRequest w env (jobOptions w accessToken locale)) s
      = (.ok jobResults, s1))
    (hdata : awaitAll jobResults = .ok jobsResponses)
    (huids : jobsResponses.mapM (fun resp => getProp resp "translationJobUid") = .ok jobUids)
    (hrec : recordJobs env jobUids s1 = (.ok records, s2))
    (hpages : awaitAll (objValues content) = .ok pages) :
    List.Forall₂
        (fun locale result =>
          ∃ sa, result = (vendorRequest w env (jobOptions w accessToken locale) sa).1)
        (objKeys content) jobResults
      ∧ ∃ new, (sendContentToVendor w env content accessToken s).2.trace = s2.trace ++ new
        ∧ ∀ req, Event.fetch req ∈ new ↔
          ∃ (idx : Nat) (locale : String) (pagesOfLocale : List Page) (data : JVal)
            (jobUid : Prim),
            content[idx]? = some (locale, Except.ok pagesOfLocale)
              ∧ jobResults[idx]? = some (Except.ok data)
              ∧ getProp data "translationJobUid" = .ok jobUid
              ∧ req = vendorRequestArgs w (batchOptions w accessToken jobUid pagesOfLocale)
              ∧ req.body = Body.batch false jobUid (pagesOfLocale.map Page.file) := by
  have hcreate : createJobs w env content accessToken s = (.ok jobUids, s1) := by
    simp only [createJobs, bind_run, hjobs, liftExcept_run, hdata, huids, pure_run]
  have hjobsLen : jobResults.length = content.length := by
    have := mapWithIndex_length _ _ _ _ _ _ hjobs
    simpa [objKeys] using this
  have hjobResults := awaitAll_ok_map jobResults jobsResponses hdata
  have hvalues := awaitAll_ok_map (objValues content) pages hpages
  have hrespLen : jobsResponses.length = content.length := by
    rw [← hjobsLen, hjobResults, List.length_map]
  have huidsLen : jobUids.length = content.length := by
    rw [← hrespLen]
    exact (List.Forall₂.length_eq (mapM_ok_forall₂ _ _ _ huids)).symm
  have hpagesLen : pages.length = content.length := by
    have := congrArg List.length hvalues
    simpa [objValues] using this.symm
  obtain ⟨rs, s3, new, hmap, htrace, hmem⟩ :=
    createBatches_trace w env pages accessToken jobUids 0 s2 (by omega)
  have hpageAt : ∀ (i : Nat) (pagesOfLocale : List Page), pages[i]? = some pagesOfLocale ↔
      ∃ locale : String, content[i]? = some (locale, Except.ok pagesOfLocale) := by
    intro i pagesOfLocale
    have hi := congrArg (fun l => l[i]?) hvalues
    simp only [objValues, List.getElem?_map] at hi
    constructor
    · intro hp
      rw [hp] at hi
      cases hc : content[i]? with
      | none => simp [hc] at hi
      | some entry =>
        obtain ⟨locale, r⟩ := entry
        simp only [hc, Option.map_some', Option.some.injEq] at hi
        exact ⟨locale, by rw [hi]⟩
    · rintro ⟨locale, hc⟩
      rw [hc] at hi
      cases hp : pages[i]? with
      | none => simp [hp] at hi
      | some ps =>
        simp only [hp, Option.map_some', Option.some.injEq, Except.ok.injEq] at hi
        rw [hi]
  have hjobAt : ∀ (i : Nat) (jobUid : Prim), jobUids[i]? = some jobUid ↔
      ∃ data : JVal, jobResults[i]? = some (Except.ok data)
        ∧ getProp data "translationJobUid" = .ok jobUid := by
    intro i jobUid
    rw [mapM_ok_getElem? _ _ _ huids i jobUid, hjobResults]
    simp only [List.getElem?_map]
    constructor
    · rintro ⟨data, hd, hg⟩
      exact ⟨data, by rw [hd]; rfl, hg⟩
    · rintro ⟨data, hd, hg⟩
      cases hr : jobsResponses[i]? with
      | none => simp [hr] at hd
      | some resp =>
        simp only [hr, Option.map_some', Option.some.injEq, Except.ok.injEq] at hd
        subst hd
        exact ⟨resp, rfl, hg⟩
  have hfetch : ∀ req, Event.fetch req ∈ new ↔
      ∃ (idx : Nat) (locale : String) (pagesOfLocale : List Page) (data : JVal) (jobUid : Prim),
        content[idx]? = some (locale, Except.ok pagesOfLocale)
          ∧ jobResults[idx]? = some (Except.ok data)
          ∧ getProp data "translationJobUid" = .ok jobUid
          ∧ req = vendorRequestArgs w (batchOptions w accessToken jobUid pagesOfLocale)
          ∧ req.body = Body.batch false jobUid (pagesOfLocale.map Page.file) := by
    intro req
    rw [hmem]
    constructor
    · rintro ⟨i, jobUid, ps, hj, hp, hreq⟩
      rw [Nat.zero_add] at hp
      obtain ⟨locale, hc⟩ := (hpageAt i ps).mp hp
      obtain ⟨data, hd, hg⟩ := (hjobAt i jobUid).mp hj
      have hreq2 := Event.fetch.inj hreq
      exact ⟨i, locale, ps, data, jobUid, hc, hd, hg, hreq2, by rw [hreq2]; rfl⟩
    · rintro ⟨i, locale, ps, data, jobUid, hc, hd, hg, hreq, _⟩
      refine ⟨i, jobUid, ps, (hjobAt i jobUid).mpr ⟨data, hd, hg⟩, ?_, by rw [hreq]⟩
      rw [Nat.zero_add]
      exact (hpageAt i ps).mpr ⟨locale, hc⟩
  refine ⟨dispatchAll_results _ _ _ _ _ _ hjobs, ?_⟩
  cases hall : awaitAll rs with
  | error e =>
    refine ⟨new, ?_, hfetch⟩
    simp only [sendContentToVendor, bind_run, hcreate, hrec, createBatches, liftExcept_run, hpages,
      hmap, hall]
    exact htrace
  | ok batchResponses =>
    obtain ⟨dbs, hdbs, hall_db⟩ := persistBatches_trace env batchResponses s3
    refine ⟨new ++ dbs, ?_, ?_⟩
    · simp only [sendContentToVendor, bind_run, hcreate, hrec, createBatches, liftExcept_run,
        hpages, hmap, hall, pure_run, logJobRecords, throwJs_run]
      rw [← List.append_assoc, ← htrace, ← hdbs]
      cases hp : persistBatches env batchResponses s3 with
      | mk r s4 =>
        cases r <;> rfl
    · intro req
      rw [← hfetch req, List.mem_append]
      constructor
      · rintro (h | h)
        · exact h
        · obtain ⟨call, hcall⟩ := hall_db _ h
          cases hcall
      · exact fun h => Or.inl h

/-- C2, witness: the end-to-end scenario, in which the one create-batch request
carries the job of `jp` and the one file that exists. -/
theorem createBatch_requests_match_content_witness :
    ∃ new, (sendContentToVendor demoWorld
          (storeEnv (scenarioAnswer (Prim.str "ACCEPTED") (Prim.str "SUCCESS")))
          scenarioContent (Prim.str "token") ⟨scenarioStore, []⟩).2.trace
        = [Event.fetch (vendorRequestArgs demoWorld (jobOptions demoWorld (Prim.str "token") "jp")),
            Event.db (DbCall.addTranslationsJobsRecord (Prim.str "job-jp"))] ++ new
      ∧ Event.fetch (vendorRequestArgs demoWorld
          (batchOptions demoWorld (Prim.str "token") (Prim.str "job-jp") [scenarioPage])) ∈ new := by
  obtain ⟨_, new, htrace, hmem⟩ := createBatch_requests_match_content demoWorld
    (storeEnv (scenarioAnswer (Prim.str "ACCEPTED") (Prim.str "SUCCESS")))
    scenarioContent (Prim.str "token") ⟨scenarioStore, []⟩
    ⟨scenarioStore,
      [Event.fetch (vendorRequestArgs demoWorld (jobOptions demoWorld (Prim.str "token") "jp"))]⟩
    ⟨{ scenarioStore with queuedJobUids := [Prim.str "job-jp"] },
      [Event.fetch (vendorRequestArgs demoWorld (jobOptions demoWorld (Prim.str "token") "jp")),
        Event.db (DbCall.addTranslationsJobsRecord (Prim.str "job-jp"))]⟩
    [.ok (JVal.obj [("translationJobUid", Prim.str "job-jp")])]
    [JVal.obj [("translationJobUid", Prim.str "job-jp")]]
    [Prim.str "job-jp"] [JVal.prim Prim.undefined] [[scenarioPage]] rfl rfl rfl rfl rfl
  exact ⟨new, htrace, (hmem _).mpr ⟨0, "jp", [scenarioPage],
    JVal.obj [("translationJobUid", Prim.str "job-jp")], Prim.str "job-jp", rfl, rfl, rfl, rfl, rfl⟩⟩

end Batches

section Reconcile

theorem find?_map_status {α : Type} (f : α → α) (p : α → Bool) (l : List α)
    (hp : ∀ a, p (f a) = p a) : (l.map f).find? p = (l.find? p).map f := by
  induction l with
  | nil => rfl
  | cons a rest ih =>
    simp only [List.map_cons, List.find?_cons, hp a]
    cases p a
    · simpa using ih
    · rfl

theorem resolveKey_withStatus (status : String) (keys : List (Prim × JVal)) (store : Store)
    (upload : JVal) : resolveKey (withStatus status keys store) upload = resolveKey store upload := by
  unfold resolveKey
  cases getProp upload "batchUid" with
  | error e => rfl
  | ok batch_uid =>
    simp only [storeDb, withStatus]
    rw [find?_map_status _ _ _ (by intro job; split <;> rfl)]
    cases store.jobs.find? (fun job => decide (job.batch_uid = batch_uid)) with
    | none => rfl
    | some job =>
      have hid : getProp
          (if job.id ∈ keys.map Prod.fst then { job with status := status } else job).toJVal "id"
          = getProp job.toJVal "id" := by
        split <;> rfl
      simp only [Option.map_some', hid]

theorem resolvedKeys_withStatus (status : String) (keys : List (Prim × JVal)) (store : Store)
    (uploads : List JVal) :
    resolvedKeys (withStatus status keys store) uploads = resolvedKeys store uploads := by
  induction uploads with
  | nil => rfl
  | cons upload rest ih =>
    simp only [resolvedKeys, resolveKey_withStatus, ih]

theorem withStatus_nil (status : String) (store : Store) : withStatus status [] store = store := by
  simp [withStatus]

theorem withStatus_append (status : String) (keys1 keys2 : List (Prim × JVal)) (store : Store) :
    withStatus status keys2 (withStatus status keys1 store)
      = withStatus status (keys1 ++ keys2) store := by
  simp only [withStatus, List.map_map, List.map_append, List.mem_append]
  congr 1
  · apply List.map_congr_left
    intro row _
    simp only [Function.comp]
    by_cases h1 : JVal.prim row.id ∈ keys1.map Prod.snd
    · simp [h1]
    · rw [if_neg h1]
      simp only [h1, false_or]
  · apply List.map_congr_left
    intro job _
    simp only [Function.comp]
    by_cases h1 : job.id ∈ keys1.map Prod.fst
    · simp [h1]
    · rw [if_neg h1]
      simp only [h1, false_or]

theorem withStatus_idem (status : String) (keys : List (Prim × JVal)) (store : Store) :
    withStatus status keys (withStatus status keys store) = withStatus status keys store := by
  rw [withStatus_append]
  simp only [withStatus, List.map_append, List.mem_append, or_self]

theorem storeEnv_db (answer : Request → HttpResponse) : (storeEnv answer).db = storeDb := rfl

theorem updateStatus_cons_store (answer : Request → HttpResponse) (upload : JVal)
    (rest : List JVal) (status : String) (s : St Store) :
    (∃ e t, resolveKey s.env upload = .error e
        ∧ updateStatus (storeEnv answer) (upload :: rest) status s = (.error e, ⟨s.env, t⟩))
      ∨ ∃ key t, resolveKey s.env upload = .ok key
        ∧ updateStatus (storeEnv answer) (upload :: rest) status s
          = updateStatus (storeEnv answer) rest status ⟨withStatus status [key] s.env, t⟩ := by
  cases hb : getProp upload "batchUid" with
  | error e =>
    left
    refine ⟨e, s.trace, ?_, ?_⟩
    · simp only [resolveKey, hb]
    · simp only [updateStatus, bind_run, liftExcept_run, hb]
  | ok batch_uid =>
    cases hjob : (storeDb s.env (DbCall.getJobs batch_uid)).1 with
    | error e =>
      left
      refine ⟨e, s.trace ++ [Event.db (DbCall.getJobs batch_uid)], ?_, ?_⟩
      · simp only [resolveKey, hb, hjob]
      · simp only [updateStatus, bind_run, liftExcept_run, hb, doDb_run, storeEnv_db, hjob]
        rfl
    | ok job =>
      cases hid : getProp job "id" with
      | error e =>
        left
        refine ⟨e, s.trace ++ [Event.db (DbCall.getJobs batch_uid)], ?_, ?_⟩
        · simp only [resolveKey, hb, hjob, hid]
        · simp only [updateStatus, bind_run, liftExcept_run, hb, doDb_run, storeEnv_db, hjob, hid]
          rfl
      | ok jobId =>
        cases htid : (storeDb s.env (DbCall.getTranslationsJobsRecords jobId)).1 with
        | error e =>
          left
          refine ⟨e, s.trace ++ [Event.db (DbCall.getJobs batch_uid)]
            ++ [Event.db (DbCall.getTranslationsJobsRecords jobId)], ?_, ?_⟩
          · simp only [resolveKey, hb, hjob, hid, htid]
          · have htid2 : (storeDb (storeDb s.env (DbCall.getJobs batch_uid)).2
                (DbCall.getTranslationsJobsRecords jobId)).1 = .error e := htid
            simp only [updateStatus, bind_run, liftExcept_run, hb, doDb_run, storeEnv_db, hjob, hid,
              htid2]
            rfl
        | ok translationId =>
          right
          refine ⟨(jobId, translationId), s.trace ++ [Event.db (DbCall.getJobs batch_uid)]
            ++ [Event.db (DbCall.getTranslationsJobsRecords jobId)]
            ++ [Event.db (DbCall.updateJob jobId status)]
            ++ [Event.db (DbCall.updateTranslation translationId status)], ?_, ?_⟩
          · simp only [resolveKey, hb, hjob, hid, htid]
          · have htid2 : (storeDb (storeDb s.env (DbCall.getJobs batch_uid)).2
                (DbCall.getTranslationsJobsRecords jobId)).1 = .ok translationId := htid
            have hstep : (storeDb (storeDb (storeDb (storeDb s.env (DbCall.getJobs batch_uid)).2
                (DbCall.getTranslationsJobsRecords jobId)).2 (DbCall.updateJob jobId status)).2
                (DbCall.updateTranslation translationId status)).2
                = withStatus status [(jobId, translationId)] s.env := by
              simp [storeDb, withStatus]
            have hok1 : (storeDb (storeDb (storeDb s.env (DbCall.getJobs batch_uid)).2
                (DbCall.getTranslationsJobsRecords jobId)).2 (DbCall.updateJob jobId status)).1
                = .ok (JVal.prim Prim.undefined) := rfl
            have hok2 : (storeDb (storeDb (storeDb (storeDb s.env (DbCall.getJobs batch_uid)).2
                (DbCall.getTranslationsJobsRecords jobId)).2 (DbCall.updateJob jobId status)).2
                (DbCall.updateTranslation translationId status)).1
                = .ok (JVal.prim Prim.undefined) := rfl
            simp only [updateStatus, bind_run, liftExcept_run, hb, doDb_run, storeEnv_db, hjob, hid,
              htid2, hok1, hok2, hstep]

theorem updateStatus_store (answer : Request → HttpResponse) (uploads : List JVal)
    (status : String) (s : St Store) :
    (updateStatus (storeEnv answer) uploads status s).2.env
      = withStatus status (resolvedKeys s.env uploads) s.env := by
  induction uploads generalizing s with
  | nil => simp [updateStatus, resolvedKeys, withStatus_nil]
  | cons upload rest ih =>
    rcases updateStatus_cons_store answer upload rest status s with
      ⟨e, t, hkey, hrun⟩ | ⟨key, t, hkey, hrun⟩
    · rw [hrun]
      simp only [resolvedKeys, hkey, withStatus_nil]
    · rw [hrun, ih]
      simp only [resolvedKeys, hkey, resolvedKeys_withStatus, withStatus_append,
        List.singleton_append]

/-- C9, counterexample: a TranslationRequest that is already `COMPLETE`, the
Job of the batch `'batch-jp'` being associated with it, is set back to
`IN_PROGRESS` by `updateStatus`, for an outcome that carries that `batchUid`. -/
theorem updateStatus_moves_complete_back :
    completedStore.translations.map (fun row => (row.id, row.status))
        = [(Prim.num 7, "COMPLETE"), (Prim.num 8, "PENDING")]
      ∧ ((updateStatus (storeEnv (scenarioAnswer (Prim.str "ACCEPTED") (Prim.str "SUCCESS")))
          [JVal.obj [("code", Prim.str "ACCEPTED"), ("batchUid", Prim.str "batch-jp")]]
          "IN_PROGRESS" ⟨completedStore, []⟩).2.env.translations.map
            (fun row => (row.id, row.status))
        = [(Prim.num 7, "IN_PROGRESS"), (Prim.num 8, "PENDING")])
      ∧ (updateStatus (storeEnv (scenarioAnswer (Prim.str "ACCEPTED") (Prim.str "SUCCESS")))
          [JVal.obj [("code", Prim.str "ACCEPTED"), ("batchUid", Prim.str "batch-jp")]]
          "IN_PROGRESS" ⟨completedStore, []⟩).1 = .ok () :=
  ⟨rfl, rfl, rfl⟩

/-- C9, amended: `updateStatus(outcomes, status)` writes `status` to every Job
and TranslationRequest it resolves, whatever their status was (`withStatus` has
no condition on the old status, so `COMPLETE` and `FAILED` are overwritten too),
and changes nothing else; running it a second time with the same outcome list
yields the same store as running it once. -/
theorem updateStatus_overwrites_and_is_idempotent (answer : Request → HttpResponse)
    (outcomes : List JVal) (status : String) (s : St Store) (trace2 : List Event) :
    (updateStatus (storeEnv answer) outcomes status s).2.env
        = withStatus status (resolvedKeys s.env outcomes) s.env
      ∧ (∀ row ∈ (updateStatus (storeEnv answer) outcomes status s).2.env.translations,
          JVal.prim row.id ∈ (resolvedKeys s.env outcomes).map Prod.snd → row.status = status)
      ∧ (updateStatus (storeEnv answer) outcomes status
          ⟨(updateStatus (storeEnv answer) outcomes status s).2.env, trace2⟩).2.env
        = (updateStatus (storeEnv answer) outcomes status s).2.env := by
  refine ⟨updateStatus_store answer outcomes status s, ?_, ?_⟩
  · intro row hrow hkey
    rw [updateStatus_store] at hrow
    simp only [withStatus] at hrow
    rw [List.mem_map] at hrow
    obtain ⟨old, _, hold⟩ := hrow
    by_cases h : JVal.prim old.id ∈ (resolvedKeys s.env outcomes).map Prod.snd
    · rw [if_pos h] at hold
      rw [← hold]
    · rw [if_neg h] at hold
      subst hold
      exact absurd hkey h
  · rw [updateStatus_store, updateStatus_store]
    show withStatus status
        (resolvedKeys (withStatus status (resolvedKeys s.env outcomes) s.env) outcomes)
        (withStatus status (resolvedKeys s.env outcomes) s.env)
      = withStatus status (resolvedKeys s.env outcomes) s.env
    rw [resolvedKeys_withStatus, withStatus_idem]

end Reconcile

section Abort

variable {σ : Type}

theorem noUpload_of_trace_eq {α : Type} (m : Eff σ α) (h : ∀ s, (m s).2.trace = s.trace) :
    NoUpload m := fun s => ⟨[], by simp [h s], by simp⟩

theorem noUpload_bind {α β : Type} (m : Eff σ α) (f : α → Eff σ β) (hm : NoUpload m)
    (hf : ∀ a, NoUpload (f a)) : NoUpload (m >>= f) := by
  intro s
  obtain ⟨new1, h1, hnew1⟩ := hm s
  simp only [bind_run]
  cases hrun : m s with
  | mk r s1 =>
    rw [hrun] at h1
    cases r with
    | error e => exact ⟨new1, h1, hnew1⟩
    | ok a =>
      obtain ⟨new2, h2, hnew2⟩ := hf a s1
      refine ⟨new1 ++ new2, ?_, ?_⟩
      · simp only at h1
        simp only [h2, h1, List.append_assoc]
      · intro ev hev
        rcases List.mem_append.mp hev with h | h
        · exact hnew1 ev h
        · exact hnew2 ev h

theorem noUpload_attempt {α : Type} (m : Eff σ α) (hm : NoUpload m) : NoUpload (attempt m) := by
  intro s
  obtain ⟨new, h, hnew⟩ := hm s
  exact ⟨new, by simpa using h, hnew⟩

theorem noUpload_mapWithIndex {α β : Type} (f : Nat → α → Eff σ β)
    (hf : ∀ idx x, NoUpload (f idx x)) (xs : List α) (idx : Nat) :
    NoUpload (mapWithIndex f idx xs) := by
  induction xs generalizing idx with
  | nil => exact noUpload_of_trace_eq _ (fun s => rfl)
  | cons x rest ih =>
    unfold mapWithIndex
    exact noUpload_bind _ _ (hf idx x) (fun y =>
      noUpload_bind _ _ (ih (idx + 1)) (fun ys => noUpload_of_trace_eq _ (fun s => rfl)))

theorem noUpload_makeRequest (env : Env σ) (req : Request)
    (hreq : isUpload (Event.fetch req) = false) : NoUpload (makeRequest env req) := by
  intro s
  obtain ⟨k, _, _, hk⟩ := makeRequest_trace env req s
  refine ⟨_, hk, ?_⟩
  intro ev hev
  rw [(List.mem_replicate.mp hev).2]
  exact hreq

theorem noUpload_doDb (env : Env σ) (call : DbCall) : NoUpload (doDb env call) :=
  fun s => ⟨[Event.db call], rfl, by simp [isUpload]⟩

theorem noUpload_createJobs (w : World) (env : Env σ)
    (content : Obj (Except JsError (List Page))) (accessToken : Prim) :
    NoUpload (createJobs w env content accessToken) := by
  unfold createJobs dispatchAll
  refine noUpload_bind _ _ (noUpload_mapWithIndex _ (fun _ locale => noUpload_attempt _ ?_) _ _)
    (fun _ => noUpload_bind _ _ (noUpload_of_trace_eq _ (fun s => rfl))
      (fun _ => noUpload_bind _ _ (noUpload_of_trace_eq _ (fun s => rfl))
        (fun _ => noUpload_of_trace_eq _ (fun s => rfl))))
  exact noUpload_makeRequest env _ (by simp [isUpload, vendorRequestArgs, jobOptions])

theorem noUpload_recordJobs (env : Env σ) (jobUids : List Prim) :
    NoUpload (recordJobs env jobUids) := by
  unfold recordJobs dispatchAll
  exact noUpload_bind _ _
    (noUpload_mapWithIndex _ (fun _ jobUid => noUpload_attempt _ (noUpload_doDb env _)) _ _)
    (fun _ => noUpload_of_trace_eq _ (fun s => rfl))

theorem noUpload_createBatch (w : World) (env : Env σ) (pages : List (List Page))
    (accessToken : Prim) (idx : Nat) (jobUid : Prim) :
    NoUpload (createBatch w env pages accessToken idx jobUid) := by
  unfold createBatch
  cases pages[idx]? with
  | none => exact noUpload_of_trace_eq _ (fun s => rfl)
  | some pagesAtIdx =>
    exact noUpload_attempt _
      (noUpload_makeRequest env _ (by simp [isUpload, vendorRequestArgs, batchOptions]))

/-- C10, counterexample: two locales, the vendor creates both jobs and the batch
of `jp` and answers the create-batch call of `kr` with `VALIDATION_ERROR`. The job
and the batch of `jp` were created, yet `sendContentToVendor` throws the error of
`kr`, its trace ends with the two create-batch requests, and no file of `jp` is
uploaded. -/
theorem failure_of_one_locale_stops_the_other :
    (sendContentToVendor demoWorld
        (storeEnv (scenarioAnswer (Prim.str "ACCEPTED") (Prim.str "VALIDATION_ERROR")))
        twoLocales (Prim.str "token") ⟨scenarioStore, []⟩).1
      = .error (JsError.vendorError (Prim.str "VALIDATION_ERROR")
          (JVal.obj [("job_uid", Prim.str "job-other"), ("batch_uid", Prim.str "batch-other")]))
      ∧ (sendContentToVendor demoWorld
          (storeEnv (scenarioAnswer (Prim.str "ACCEPTED") (Prim.str "VALIDATION_ERROR")))
          twoLocales (Prim.str "token") ⟨scenarioStore, []⟩).2.trace
        = [Event.fetch (vendorRequestArgs demoWorld (jobOptions demoWorld (Prim.str "token") "jp")),
            Event.fetch (vendorRequestArgs demoWorld (jobOptions demoWorld (Prim.str "token") "kr")),
            Event.db (DbCall.addTranslationsJobsRecord (Prim.str "job-jp")),
            Event.db (DbCall.addTranslationsJobsRecord (Prim.str "job-other")),
            Event.fetch (vendorRequestArgs demoWorld
              (batchOptions demoWorld (Prim.str "token") (Prim.str "job-jp") [scenarioPage])),
            Event.fetch (vendorRequestArgs demoWorld
              (batchOptions demoWorld (Prim.str "token") (Prim.str "job-other") [scenarioPage]))]
      ∧ (scenarioAnswer (Prim.str "ACCEPTED") (Prim.str "VALIDATION_ERROR")
          (vendorRequestArgs demoWorld
            (jobOptions demoWorld (Prim.str "token") "jp"))).response.code = Prim.str "SUCCESS"
      ∧ (scenarioAnswer (Prim.str "ACCEPTED") (Prim.str "VALIDATION_ERROR")
          (vendorRequestArgs demoWorld
            (batchOptions demoWorld (Prim.str "token") (Prim.str "job-jp")
              [scenarioPage]))).response.code = Prim.str "SUCCESS"
      ∧ (sendContentToVendor demoWorld
          (storeEnv (scenarioAnswer (Prim.str "ACCEPTED") (Prim.str "VALIDATION_ERROR")))
          twoLocales (Prim.str "token") ⟨scenarioStore, []⟩).2.trace.any isUpload = false :=
  ⟨rfl, rfl, rfl, rfl, rfl⟩

/-- C10, amended: when the create-job call of some locale is rejected, or all
jobs are created and recorded and the create-batch call of some locale is
rejected, `sendContentToVendor` as a whole throws: it stops in the state reached
when the calls of that stage have been issued, and from its start to that state
it has issued no file upload, for any locale. -/
theorem sendContentToVendor_aborts_whole_run (w : World) (env : Env σ)
    (content : Obj (Except JsError (List Page))) (accessToken : Prim) (s s1 : St σ)
    (h : (∃ (jobResults : List (Except JsError JVal)) (e : JsError),
          dispatchAll (objKeys content)
              (fun locale => vendorRequest w env (jobOptions w accessToken locale)) s
            = (.ok jobResults, s1)
          ∧ Except.error e ∈ jobResults)
      ∨ ∃ (jobUids : List Prim) (sa sb : St σ) (records : List JVal) (pages : List (List Page))
          (batchResults : List (Except JsError JVal)) (e : JsError),
          createJobs w env content accessToken s = (.ok jobUids, sa)
          ∧ recordJobs env jobUids sa = (.ok records, sb)
          ∧ awaitAll (objValues content) = .ok pages
          ∧ mapWithIndex (createBatch w env pages accessToken) 0 jobUids sb = (.ok batchResults, s1)
          ∧ Except.error e ∈ batchResults) :
    (∃ e, sendContentToVendor w env content accessToken s = (.error e, s1))
      ∧ ∃ new, s1.trace = s.trace ++ new ∧ ∀ ev ∈ new, isUpload ev = false := by
  rcases h with ⟨jobResults, e, hjobs, hmem⟩ |
    ⟨jobUids, sa, sb, records, pages, batchResults, e, hcreate, hrec, hpages, hbatch, hmem⟩
  · obtain ⟨e1, he1⟩ := awaitAll_error_of_mem jobResults e hmem
    have hcreate : createJobs w env content accessToken s = (.error e1, s1) := by
      simp only [createJobs, bind_run, hjobs, liftExcept_run, he1]
    refine ⟨⟨e1, by simp only [sendContentToVendor, bind_run, hcreate]⟩, ?_⟩
    have := noUpload_createJobs w env content accessToken s
    rw [hcreate] at this
    exact this
  · obtain ⟨e1, he1⟩ := awaitAll_error_of_mem batchResults e hmem
    refine ⟨⟨e1, by
      simp only [sendContentToVendor, bind_run, hcreate, hrec, createBatches, liftExcept_run,
        hpages, hbatch, he1]⟩, ?_⟩
    obtain ⟨new1, h1, hnew1⟩ := noUpload_createJobs w env content accessToken s
    obtain ⟨new2, h2, hnew2⟩ := noUpload_recordJobs env jobUids sa
    obtain ⟨new3, h3, hnew3⟩ := noUpload_mapWithIndex (createBatch w env pages accessToken)
      (fun idx jobUid => noUpload_createBatch w env pages accessToken idx jobUid) jobUids 0 sb
    rw [hcreate] at h1
    rw [hrec] at h2
    rw [hbatch] at h3
    refine ⟨new1 ++ new2 ++ new3, ?_, ?_⟩
    · simp only at h1 h2 h3
      rw [h3, h2, h1]
      simp only [List.append_assoc]
    · intro ev hev
      rcases List.mem_append.mp hev with h12 | h
      · rcases List.mem_append.mp h12 with h | h
        · exact hnew1 ev h
        · exact hnew2 ev h
      · exact hnew3 ev h

/-- C10, witness: the run of the counterexample, where the create-batch call of
`kr` is rejected after the job and the batch of `jp` were created. -/
theorem sendContentToVendor_aborts_whole_run_witness :
    ∃ e, (sendContentToVendor demoWorld
        (storeEnv (scenarioAnswer (Prim.str "ACCEPTED") (Prim.str "VALIDATION_ERROR")))
        twoLocales (Prim.str "token") ⟨scenarioStore, []⟩).1 = .error e := by
  obtain ⟨⟨e, he⟩, _⟩ := sendContentToVendor_aborts_whole_run demoWorld
    (storeEnv (scenarioAnswer (Prim.str "ACCEPTED") (Prim.str "VALIDATION_ERROR")))
    twoLocales (Prim.str "token") ⟨scenarioStore, []⟩
    (mapWithIndex
      (createBatch demoWorld
        (storeEnv (scenarioAnswer (Prim.str "ACCEPTED") (Prim.str "VALIDATION_ERROR")))
        [[scenarioPage], [scenarioPage]] (Prim.str "token")) 0
      [Prim.str "job-jp", Prim.str "job-other"]
      (recordJobs (storeEnv (scenarioAnswer (Prim.str "ACCEPTED") (Prim.str "VALIDATION_ERROR")))
        [Prim.str "job-jp", Prim.str "job-other"]
        (createJobs demoWorld
          (storeEnv (scenarioAnswer (Prim.str "ACCEPTED") (Prim.str "VALIDATION_ERROR")))
          twoLocales (Prim.str "token") ⟨scenarioStore, []⟩).2).2).2
    (Or.inr ⟨[Prim.str "job-jp", Prim.str "job-other"], _, _,
      [JVal.prim Prim.undefined, JVal.prim Prim.undefined], [[scenarioPage], [scenarioPage]],
      [.ok (JVal.obj [("job_uid", Prim.str "job-jp"), ("batch_uid", Prim.str "batch-jp")]),
        .error (JsError.vendorError (Prim.str "VALIDATION_ERROR")
          (JVal.obj [("job_uid", Prim.str "job-other"), ("batch_uid", Prim.str "batch-other")]))],
      JsError.vendorError (Prim.str "VALIDATION_ERROR")
        (JVal.obj [("job_uid", Prim.str "job-other"), ("batch_uid", Prim.str "batch-other")]),
      rfl, rfl, rfl, rfl, by simp⟩)
  exact ⟨e, by rw [he]⟩

end Abort

section Context

theorem replaceFirstChars_prefix (pattern rest : List Char) :
    replaceFirstChars pattern [] (pattern ++ rest) = rest := by
  cases h : pattern ++ rest with
  | nil =>
    have hp : pattern = [] := (List.append_eq_nil.mp h).1
    have hr : rest = [] := (List.append_eq_nil.mp h).2
    simp [replaceFirstChars, hp, hr]
  | cons c cs =>
    have hpre : pattern.isPrefixOf (c :: cs) = true := by
      rw [← h, List.isPrefixOf_iff_prefix]
      exact List.prefix_append pattern rest
    simp only [replaceFirstChars, hpre, if_true, List.nil_append]
    rw [← h, List.drop_left]

theorem mdx_not_prefix_of_overlap (c : Char) (cs : List Char)
    (h : ¬ ['.', 'm', 'd', 'x'] <:+: c :: cs) :
    (['.', 'm', 'd', 'x'] : List Char).isPrefixOf (c :: cs ++ ['.', 'm', 'd', 'x']) = false := by
  rw [Bool.eq_false_iff]
  intro hpre
  rw [List.isPrefixOf_iff_prefix] at hpre
  obtain ⟨t, ht⟩ := hpre
  match cs, h, ht with
  | [], _, ht =>
    simp only [List.cons_append, List.nil_append, List.cons.injEq] at ht
    exact absurd ht.2.1 (by decide)
  | [_], _, ht =>
    simp only [List.cons_append, List.nil_append, List.cons.injEq] at ht
    exact absurd ht.2.2.1 (by decide)
  | [_, _], _, ht =>
    simp only [List.cons_append, List.nil_append, List.cons.injEq] at ht
    exact absurd ht.2.2.2.1 (by decide)
  | a :: b :: d :: rest, h, ht =>
    simp only [List.cons_append, List.nil_append, List.cons.injEq] at ht
    apply h
    obtain ⟨h1, h2, h3, h4, _⟩ := ht
    subst h1 h2 h3 h4
    exact (List.prefix_append ['.', 'm', 'd', 'x'] rest).isInfix

theorem replaceFirstChars_mdx_suffix (path : List Char)
    (h : ¬ ['.', 'm', 'd', 'x'] <:+: path) :
    replaceFirstChars ['.', 'm', 'd', 'x'] [] (path ++ ['.', 'm', 'd', 'x']) = path := by
  induction path with
  | nil => decide
  | cons c cs ih =>
    have hcs : ¬ ['.', 'm', 'd', 'x'] <:+: cs := by
      intro hin
      exact h (List.IsInfix.trans hin (List.suffix_cons c cs).isInfix)
    have hno := mdx_not_prefix_of_overlap c cs h
    simp only [List.cons_append] at hno ⊢
    simp only [replaceFirstChars, hno, Bool.false_eq_true, if_false, List.cons.injEq, true_and]
    exact ih hcs

/-- For a file URI `src/content/` followed by a path that does not contain
`.mdx` followed by `.mdx`, the two `replace` calls of `sendPageContext` give back
the path, and the page requested and the `name` of the context form are the path
resolved against `DOCS_SITE_URL`. -/
theorem sendPageContext_url_of_plain_path {σ : Type} (w : World) (env : Env σ) (path : String)
    (accessToken : Prim) (s : St σ) (h : ¬ ".mdx".toList <:+: path.toList) :
    replaceFirst (replaceFirst ("src/content/" ++ path ++ ".mdx") "src/content/" "") ".mdx" ""
        = path
      ∧ ∃ html, (sendPageContext w env ("src/content/" ++ path ++ ".mdx") accessToken s).2.trace
        = s.trace ++
          [Event.fetch
              { method := "GET", url := w.href path DOCS_SITE_URL, authorization := none,
                contentType := none, body := Body.absent },
            Event.fetch
              { method := "POST",
                url := w.href
                  ("/context-api/v2/projects/" ++ w.projectId
                    ++ "/contexts/upload-and-match-async") w.apiUrl,
                authorization := some ("Bearer " ++ accessToken.toStr), contentType := none,
                body := Body.contextForm html ("src/content/" ++ path ++ ".mdx")
                  (w.href path DOCS_SITE_URL) }] := by
  have hslug : replaceFirst (replaceFirst ("src/content/" ++ path ++ ".mdx") "src/content/" "")
      ".mdx" "" = path := by
    have h1 : replaceFirst ("src/content/" ++ path ++ ".mdx") "src/content/" ""
        = path ++ ".mdx" := by
      unfold replaceFirst
      have : ("src/content/" ++ path ++ ".mdx").toList
          = "src/content/".toList ++ (path.toList ++ ".mdx".toList) := by
        simp [String.toList]
      rw [this]
      have hempty : ("" : String).toList = [] := rfl
      rw [hempty, replaceFirstChars_prefix]
      apply String.ext
      simp [String.toList]
    rw [h1]
    unfold replaceFirst
    have h2 : (path ++ ".mdx").toList = path.toList ++ ['.', 'm', 'd', 'x'] := by
      simp [String.toList]
    have h3 : (".mdx" : String).toList = ['.', 'm', 'd', 'x'] := rfl
    have hempty : ("" : String).toList = [] := rfl
    rw [h2, h3, hempty, replaceFirstChars_mdx_suffix path.toList (by rw [← h3]; exact h)]
    rfl
  refine ⟨hslug, ?_⟩
  refine ⟨(env.fetch s.env
    { method := "GET", url := w.href path DOCS_SITE_URL, authorization := none,
      contentType := none, body := Body.absent }).1.text, ?_⟩
  simp only [sendPageContext, bind_run, doFetch_run, pure_run, hslug, List.append_assoc,
    List.singleton_append]

/-- C11, evaluated at the file URI `src/content/docs/x.mdx-old/page.mdx`, which
is `src/content/` followed by the path `docs/x.mdx-old/page` followed by `.mdx`:
the second `replace` removes the first `.mdx` it finds, the one inside the path,
so the slug is `docs/x-old/page.mdx`; the page requested and the `name` of the
context form are that slug resolved against `https://docs.newrelic.com`, not the
path `docs/x.mdx-old/page`. -/
theorem sendPageContext_strips_first_mdx :
    "src/content/docs/x.mdx-old/page.mdx" = "src/content/" ++ "docs/x.mdx-old/page" ++ ".mdx"
      ∧ replaceFirst (replaceFirst "src/content/docs/x.mdx-old/page.mdx" "src/content/" "")
          ".mdx" "" = "docs/x-old/page.mdx"
      ∧ (sendPageContext demoWorld
          (storeEnv (scenarioAnswer (Prim.str "ACCEPTED") (Prim.str "SUCCESS")))
          "src/content/docs/x.mdx-old/page.mdx" (Prim.str "token") ⟨scenarioStore, []⟩).2.trace
        = [Event.fetch
            { method := "GET", url := "https://docs.newrelic.com/docs/x-old/page.mdx",
              authorization := none, contentType := none, body := Body.absent },
          Event.fetch
            { method := "POST",
              url := "https://api.vendor.test/context-api/v2/projects/p1/contexts/upload-and-match-async",
              authorization := some "Bearer token", contentType := none,
              body := Body.contextForm "<html></html>" "src/content/docs/x.mdx-old/page.mdx"
                "https://docs.newrelic.com/docs/x-old/page.mdx" }]
      ∧ demoWorld.href "docs/x.mdx-old/page" DOCS_SITE_URL
        = "https://docs.newrelic.com/docs/x.mdx-old/page" := by
  refine ⟨by decide, by decide, rfl, by decide⟩

end Context

end TranslationQueue
